import Mathlib

/-!
Verification of the slab-js terrain engine against its specification.

The TypeScript sources are embedded shallowly:

* JS `number` is modelled as an element of a `LinearOrderedField` (exact
  arithmetic; all statements are made at `ℚ` or `ℝ`).
* A vertex (`THREE.Vector3` / `@math.gl/core` `Vector3`) is a record of three
  coordinates; the engine only ever touches the `z` (elevation) channel.
* In-place mutation of the vertex array becomes explicit state passing on
  `List (Vec3 α)`.
* `Math.random()` is modelled by an explicit stream `rnd : ℕ → α` of draws,
  consumed in call order; the process-wide noise seed (`seed` from
  `util/noise.ts`, a file whose body is not part of the sources) is threaded
  explicitly as a value of type `α`, and the noise functions `perlin` /
  `simplex` are abstract functions of the current seed and the coordinates.
* Transcendental library functions (`Math.cos`, `Math.sin`, `Math.exp`,
  `Math.sqrt`, `Math.pow`) are passed to the embedded generators as explicit
  function parameters, mirroring the fact that they are imports of the source.
* A JS expression that would throw (reading a property of `undefined`) is
  modelled with `Option`: the embedded operation returns `none` exactly where
  the source would raise a `TypeError`.
-/

set_option linter.unusedSectionVars false

namespace Slab

/-- A 3D vertex; the terrain engine reads and writes only the `z` channel. -/
structure Vec3 (α : Type) where
  x : α
  y : α
  z : α
deriving DecidableEq, Repr

/-- The vertex grid: the flat, row-major vertex array of the plane geometry. -/
abbrev Grid (α : Type) := List (Vec3 α)

/-! ## List update helpers

`modV g k f` applies `f` to the element at index `k`, leaving the list
unchanged when `k` is out of range. JS semantics note: `g[k].z += d` and
`g[k].z = v` throw on an out-of-range `k`; all embedded code paths that can
reach an out-of-range index are modelled with `Option` instead (see
`setZChecked`, `gridAddZChecked`), and `modV` is only used where the claims
supply grids that are large enough. -/

def modV {α : Type} : Grid α → ℕ → (Vec3 α → Vec3 α) → Grid α
  | [], _, _ => []
  | v :: t, 0, f => f v :: t
  | v :: t, k + 1, f => v :: modV t k f

variable {α : Type} [LinearOrderedField α]

/-- Write `v.z + d` at index `k` (the JS `g[k].z += d`). -/
def addZ (g : Grid α) (k : ℕ) (d : α) : Grid α :=
  modV g k fun v => ⟨v.x, v.y, v.z + d⟩

/-- Write `z := d` at index `k` (the JS `g[k].z = d`). -/
def setZ (g : Grid α) (k : ℕ) (d : α) : Grid α :=
  modV g k fun v => ⟨v.x, v.y, d⟩

/-- Pointwise elevation shift: `zAddC g c` adds `c k` to the elevation of the
vertex at each index `k`, leaving `x` and `y` untouched. Used to state that a
generator adds, rather than replaces, elevation. -/
def zAddC : Grid α → (ℕ → α) → Grid α
  | [], _ => []
  | v :: t, c => ⟨v.x, v.y, v.z + c 0⟩ :: zAddC t fun k => c (k + 1)

/-! ## Option-threaded iteration

`foldO` is a left fold where every step may fail; it models a JS loop whose
body can throw: the first throwing iteration aborts the whole computation. -/

def foldO {σ β : Type} (f : σ → β → Option σ) : σ → List β → Option σ
  | s, [] => some s
  | s, b :: t =>
    match f s b with
    | some s2 => foldO f s2 t
    | none => none

/-- Sequence a list of optional values (used to model a loop of reads each of
which may throw). -/
def seqO {β : Type} : List (Option β) → Option (List β)
  | [] => some []
  | o :: t => o.bind fun v => (seqO t).map fun vs => v :: vs

/-! ## Terrain options (`util/basicTypes.ts`)

Modelled from the spec: the file `util/basicTypes.ts` is not among the
sources; §3 of the spec describes the terrain options record as an immutable
value holding the segment counts, world-space extents, height bounds,
frequency, steps, `stretch`/`turbulent` flags, an easing function and an
optional `after` hook. The `after` hook also receives the options in the
source; that argument is modelled as captured by the hook closure, and a
possible exception thrown by the hook is modelled by the `Option String`
component of the result. Fields used only by the excluded rendering layer
(`optimization`, `useBufferGeometry`, `heightmap`) are omitted. -/
structure TerrainOptions (α : Type) where
  widthSegments : ℕ
  heightSegments : ℕ
  width : α
  height : α
  minHeight : α
  maxHeight : α
  frequency : α
  steps : α
  stretch : Bool
  turbulent : Bool
  easing : α → α
  after : Option (Grid α → Grid α × Option String)

/-! ## Grid adapters (`src/util/core.ts`) -/

/-- Embedding of `toArray2D` (`src/util/core.ts` lines 22-39): build the 2D
array `tgt` with `tgt[i][j] = vertices[j * xl + i].z`, `i < widthSegments + 1`,
`j < heightSegments + 1`. Reading `.z` of a missing vertex throws in JS, hence
the `Option` result. -/
def toArray2D (vertices : Grid α) (options : TerrainOptions α) :
    Option (List (List α)) :=
  let xl := options.widthSegments + 1
  let yl := options.heightSegments + 1
  seqO ((List.range xl).map fun i =>
    seqO ((List.range yl).map fun j => (vertices.get? (j * xl + i)).map Vec3.z))

/-- Checked elevation write: `vertices[k].z = v` throws when `vertices[k]` is
`undefined`, i.e. when `k` is out of range. -/
def setZChecked (g : Grid α) (k : ℕ) (v : α) : Option (Grid α) :=
  match g.get? k with
  | some _ => some (setZ g k v)
  | none => none

/-- Embedding of `fromArray2D` (`src/util/core.ts` lines 51-55): write
`vertices[j * xl + i].z = src[i][j]` for every `i < src.length` and
`j < src[i].length`, where `xl = src.length`. There is no length guard in the
source: a vertex index beyond the array throws, modelled by `none`. -/
def fromArray2D (vertices : Grid α) (src : List (List α)) : Option (Grid α) :=
  foldO (fun g1 i =>
      foldO (fun g2 j => setZChecked g2 (j * src.length + i) ((src.getD i []).getD j 0))
        g1 (List.range (src.getD i []).length))
    vertices (List.range src.length)

/-- Embedding of `toArray1D` (`src/util/core.ts` lines 68-73). -/
def toArray1D (vertices : Grid α) : List α :=
  vertices.map Vec3.z

/-- Embedding of `fromArray1D` (`src/util/core.ts` lines 85-88): the loop
bound is `min vertices.length src.length`, so the write never goes out of
range and the function is total. -/
def fromArray1D (vertices : Grid α) (src : List α) : Grid α :=
  (List.range (min vertices.length src.length)).foldl
    (fun g1 i => setZ g1 i (src.getD i 0)) vertices

/-! ## Easing functions (`src/util/core.ts` lines 93-116) -/

/-- Embedding of `Linear`: the identity. -/
def Linear (x : α) : α := x

/-- Embedding of `EaseIn`: `x * x`. -/
def EaseIn (x : α) : α := x * x

/-- Embedding of `EaseOut`: `-x * (x - 2)`. -/
def EaseOut (x : α) : α := -x * (x - 2)

/-- Embedding of `EaseInOut`: `x * x * (3 - 2 * x)`. -/
def EaseInOut (x : α) : α := x * x * (3 - 2 * x)

/-- Embedding of `InEaseOut`: `0.5 * (2 * x - 1) ^ 3 + 0.5`. -/
def InEaseOut (x : α) : α :=
  let y := 2 * x - 1
  (1 / 2) * y * y * y + 1 / 2

/-- Embedding of `EaseInWeak`: `Math.pow(x, 1.55)`, i.e. the real power
`x ^ (1.55 : ℝ)`. -/
noncomputable def EaseInWeak (x : ℝ) : ℝ := x ^ (1.55 : ℝ)

/-- Embedding of `EaseInStrong`: `x^7` written as seven factors. -/
def EaseInStrong (x : α) : α := x * x * x * x * x * x * x

/-! ## The doubly indexed mutation loop shared by the generators

Every generator in `util/generators.ts` mutates the grid with two nested
loops `for i in [0, widthSegments] { for j in [0, heightSegments] { touch
g[j * xl + i] } }`; `ijFold` is that loop with the body as a parameter,
iterating in exactly the source order (`i` outer, `j` inner). -/

def ijFold (xl yl : ℕ) (f : ℕ → ℕ → Vec3 α → Vec3 α) (g : Grid α) : Grid α :=
  (List.range xl).foldl
    (fun g1 i => (List.range yl).foldl (fun g2 j => modV g2 (j * xl + i) (f i j)) g1) g

/-! ## Pass composition (`util/generators.ts` lines 8-12 and 37-55) -/

/-- Embedding of the `Pass` interface: a heightmap method plus optional
amplitude and frequency (`undefined` becomes `none`). -/
structure Pass (α : Type) where
  method : Grid α → TerrainOptions α → Grid α
  amplitude : Option α
  frequency : Option α

/-- The per-pass options adjustment performed inside the `MultiPass` loop
(`util/generators.ts` lines 46-52): `range` is computed once from the base
options; the cloned options get the symmetric height-window shrink `move`
and the pass frequency override. -/
def adjustOptions (options : TerrainOptions α) (pass : Pass α) : TerrainOptions α :=
  let range := options.maxHeight - options.minHeight
  let amp := pass.amplitude.getD 1
  let move := (1 / 2) * (range - range * amp)
  { options with
    maxHeight := options.maxHeight - move
    minHeight := options.minHeight + move
    frequency := pass.frequency.getD options.frequency }

/-- Embedding of `MultiPass` (`util/generators.ts` lines 37-55): run every
pass in array order on the shared grid with the adjusted options. -/
def MultiPass (g : Grid α) (options : TerrainOptions α) (passes : List (Pass α)) :
    Grid α :=
  passes.foldl (fun g1 pass => pass.method g1 (adjustOptions options pass)) g

/-! ## Stochastic generators (`util/generators.ts`)

The generators are embedded with this uniform signature: the `Math.random()`
stream `rnd` (consumed in draw order starting at index 0), the current
process-wide noise seed (the last value passed to `seed` from
`util/noise.ts`), the grid, and the options; they return the new noise seed
together with the mutated grid. The noise primitives `perlin` / `simplex`
(whose defining file `util/noise.ts` is not among the sources — modelled from
the spec: `seed(value)` reinitializes the internal state and `perlin(x, y)` /
`simplex(x, y)` are deterministic for a fixed seed) are abstract functions of
the seed and the coordinates, and the transcendental `Math` imports are
abstract function parameters. -/

/-- Embedding of `Cosine` (`util/generators.ts` lines 102-116): adds
`amplitude * (cos(i * frequencyScalar + phase) + cos(j * frequencyScalar +
phase))` to every vertex; the phase consumes one random draw; `seed` is not
called. -/
def Cosine (cosF : α → α) (piv : α) (rnd : ℕ → α) (seedSt : α)
    (g : Grid α) (options : TerrainOptions α) : α × Grid α :=
  let amplitude := (options.maxHeight - options.minHeight) * (1 / 2)
  let frequencyScalar := options.frequency * piv /
    ((min options.widthSegments options.heightSegments + 1 : ℕ) : α)
  let phase := rnd 0 * piv * 2
  (seedSt,
    ijFold (options.widthSegments + 1) (options.heightSegments + 1)
      (fun i j v => ⟨v.x, v.y, v.z +
        amplitude * (cosF ((i : α) * frequencyScalar + phase) +
          cosF ((j : α) * frequencyScalar + phase))⟩) g)

/-- Embedding of `Perlin` (`util/generators.ts` lines 268-279): calls
`seed(Math.random())` first (the returned seed is `rnd 0`), then adds
`perlin(i / divisor, j / divisor) * range` per vertex. -/
def Perlin (perlinF : α → α → α → α) (rnd : ℕ → α) (seedSt : α)
    (g : Grid α) (options : TerrainOptions α) : α × Grid α :=
  let seed2 := rnd 0
  let range := (options.maxHeight - options.minHeight) * (1 / 2)
  let divisor := ((min options.widthSegments options.heightSegments + 1 : ℕ) : α) /
    options.frequency
  (seed2,
    ijFold (options.widthSegments + 1) (options.heightSegments + 1)
      (fun i j v => ⟨v.x, v.y, v.z +
        perlinF seed2 ((i : α) / divisor) ((j : α) / divisor) * range⟩) g)

/-- Embedding of `Simplex` (`util/generators.ts` lines 318-330): same shape
as `Perlin` with the doubled divisor. -/
def Simplex (simplexF : α → α → α → α) (rnd : ℕ → α) (seedSt : α)
    (g : Grid α) (options : TerrainOptions α) : α × Grid α :=
  let seed2 := rnd 0
  let range := (options.maxHeight - options.minHeight) * (1 / 2)
  let divisor := ((min options.widthSegments options.heightSegments + 1 : ℕ) : α) * 2 /
    options.frequency
  (seed2,
    ijFold (options.widthSegments + 1) (options.heightSegments + 1)
      (fun i j v => ⟨v.x, v.y, v.z +
        simplexF seed2 ((i : α) / divisor) ((j : α) / divisor) * range⟩) g)

/-- The loop body of `Fault` (`util/generators.ts` lines 243-256), factored
out of the embedding so that its effect on a single vertex can be named: for
iteration `k` and vertex `(i, j)`, displace depending on which side of the
random line the vertex lies, with a cosine transition band. -/
def FaultBody (sinF cosF sqrtF : α → α) (piv : α) (rnd : ℕ → α)
    (options : TerrainOptions α) (k : ℕ) (i j : ℕ) (w : Vec3 α) : Vec3 α :=
  let ws := options.widthSegments
  let hs := options.heightSegments
  let d := sqrtF ((ws : α) * (ws : α) + (hs : α) * (hs : α))
  let iterations := d * options.frequency
  let range := (options.maxHeight - options.minHeight) * (1 / 2)
  let displacement := range / iterations
  let smoothDistance :=
    min (options.width / (ws : α)) (options.height / (hs : α)) * options.frequency
  let v := rnd (2 * k)
  let a := sinF (v * piv * 2)
  let b := cosF (v * piv * 2)
  let c := rnd (2 * k + 1) * d - d * (1 / 2)
  let distance := a * (i : α) + b * (j : α) - c
  if smoothDistance < distance then ⟨w.x, w.y, w.z + displacement⟩
  else if distance < -smoothDistance then ⟨w.x, w.y, w.z - displacement⟩
  else ⟨w.x, w.y, w.z + cosF (distance / smoothDistance * piv * 2) * displacement⟩

/-- Embedding of `Fault` (`util/generators.ts` lines 225-259). Each of the
`ceil(d * frequency)` iterations (the JS loop `for (k = 0; k < iterations;
k++)` with a fractional bound) consumes two random draws and displaces the
two sides of a random line via `FaultBody`; `seed` is not called. -/
def Fault (sinF cosF sqrtF : α → α) (piv : α) (rnd : ℕ → α) (seedSt : α)
    (g : Grid α) (options : TerrainOptions α) [FloorRing α] : α × Grid α :=
  let ws := options.widthSegments
  let hs := options.heightSegments
  let d := sqrtF ((ws : α) * (ws : α) + (hs : α) * (hs : α))
  let iterations := d * options.frequency
  (seedSt,
    (List.range ⌈iterations⌉₊).foldl (fun g1 k =>
      ijFold (ws + 1) (hs + 1) (FaultBody sinF cosF sqrtF piv rnd options k) g1) g)

/-! ## DiamondSquare (`util/generators.ts` lines 145-214)

The recursive midpoint-displacement generator works on a transient square
heightmap of `(segments + 1) × (segments + 1)` 64-bit floats. Every heightmap
access in the embedding is checked: `hmGet` / `hmSet` return `none` when an
index is out of range, so a successful run certifies that the source never
touches a missing element (claim C10). The `Math.random()` draw counter is
threaded through the state `(heightmap, ctr)`. -/

/-- The `ceilPowerOfTwo` computation (`util/generators.ts` lines 146-153):
the smallest power of two that is at least
`max(widthSegments, heightSegments) + 1`, modelled with `Nat.clog` in place
of the floating-point `2^ceil(log v / ln 2)`. -/
def dsSegments (ws hs : ℕ) : ℕ := 2 ^ Nat.clog 2 (max ws hs + 1)

/-- Checked heightmap read `heightmap[x][y]`. -/
def hmGet (hm : List (List α)) (x y : ℕ) : Option α :=
  (hm.get? x).bind fun row => row.get? y

/-- Checked heightmap write `heightmap[x][y] = v`. -/
def hmSet (hm : List (List α)) (x y : ℕ) (v : α) : Option (List (List α)) :=
  match hm.get? x with
  | some row => if y < row.length then some (hm.set x (row.set y v)) else none
  | none => none

/-- The wrapped left/bottom neighbour index `(x - half + size) % size` of the
diamond step (the JS subtraction can go below zero, so the source adds `size`
first; with `x < size` and `half ≤ size` the natural-number rendering is
exact). -/
def dsWrapSub (size half x : ℕ) : ℕ := (x + size - half) % size

/-- The wrapped right/top neighbour index `(x + half) % size` of the diamond
step. -/
def dsWrapAdd (size half x : ℕ) : ℕ := (x + half) % size

/-- The iteration values of a JS loop `for (v = 0; v < bound; v += step)`. -/
def strideList (bound step : ℕ) : List ℕ :=
  (List.range ((bound + step - 1) / step)).map fun t => t * step

/-- The iteration values of a JS loop `for (v = start; v < bound; v += step)`. -/
def strideFrom (start bound step : ℕ) : List ℕ :=
  (List.range ((bound - start + step - 1) / step)).map fun t => start + t * step

/-- One cell of the square step (`util/generators.ts` lines 175-185): average
the four corners of the `whole`-sized square at `(x, y)`, displace by a random
amount in `±smoothing`, and write the result at the centre
`(x + half, y + half)`. Note the source's `avg *= 0.25`. -/
def dsSquareCell (rnd : ℕ → α) (whole half : ℕ) (s : α)
    (st : List (List α) × ℕ) (x y : ℕ) : Option (List (List α) × ℕ) := do
  let d := rnd st.2 * s * 2 - s
  let tl ← hmGet st.1 x y
  let tr ← hmGet st.1 (x + whole) y
  let bl ← hmGet st.1 x (y + whole)
  let br ← hmGet st.1 (x + whole) (y + whole)
  let avg := (tl + tr + bl + br) * (1 / 4 : α)
  let hm2 ← hmSet st.1 (x + half) (y + half) (avg + d)
  pure (hm2, st.2 + 1)

/-- One cell of the diamond step (`util/generators.ts` lines 188-202):
average the four wrapped neighbours at distance `half`, displace, write at
`(x, y)`, and copy the computed value to the opposite border when `x = 0` or
`y = 0` (the source's `heightmap[segments][y] = avg` / `heightmap[x][segments]
= avg`). -/
def dsDiamondCell (rnd : ℕ → α) (seg half : ℕ) (s : α)
    (st : List (List α) × ℕ) (x y : ℕ) : Option (List (List α) × ℕ) := do
  let size := seg + 1
  let d := rnd st.2 * s * 2 - s
  let ml ← hmGet st.1 (dsWrapSub size half x) y
  let mr ← hmGet st.1 (dsWrapAdd size half x) y
  let mt ← hmGet st.1 x (dsWrapAdd size half y)
  let mb ← hmGet st.1 x (dsWrapSub size half y)
  let avg := (ml + mr + mt + mb) * (1 / 4 : α) + d
  let hm2 ← hmSet st.1 x y avg
  let hm3 ← if x = 0 then hmSet hm2 seg y avg else pure hm2
  let hm4 ← if y = 0 then hmSet hm3 x seg avg else pure hm3
  pure (hm4, st.2 + 1)

/-- One level of the main loop (`util/generators.ts` lines 169-203) at side
length `l` (the source's `whole = Math.round(l)`, `half = Math.round(l * 0.5)`;
`l` is always a power of two here, so the rounds are exact): the square step
over `x, y ∈ {0, l, 2l, ...} ∩ [0, segments)`, then the diamond step over
`x ∈ {0, half, ...} ∩ [0, segments)` and `y` from `(x + half) % l` in steps
of `l`. -/
def dsLevel (rnd : ℕ → α) (seg l : ℕ) (s : α) (st : List (List α) × ℕ) :
    Option (List (List α) × ℕ) := do
  let half := l / 2
  let st1 ← foldO (fun st2 x =>
    foldO (fun st3 y => dsSquareCell rnd l half s st3 x y) st2 (strideList seg l))
    st (strideList seg l)
  foldO (fun st3 x =>
    foldO (fun st4 y => dsDiamondCell rnd seg half s st4 x y) st3
      (strideFrom ((x + half) % l) seg l))
    st1 (strideList seg half)

/-- The main loop `for (l = segments; l >= 2; l /= 2)` with
`smoothing /= 2` at the start of each level (so a level at side `l` uses
`s / 2` and passes it on). -/
def dsLoop (rnd : ℕ → α) (seg : ℕ) (l : ℕ) (s : α) (st : List (List α) × ℕ) :
    Option (List (List α) × ℕ) :=
  if h : 2 ≤ l then
    (dsLevel rnd seg l (s / 2) st).bind fun st2 =>
      dsLoop rnd seg (l / 2) (s / 2) st2
  else pure st
termination_by l
decreasing_by exact Nat.div_lt_self (by omega) (by omega)

/-- Claim-side trace of the main loop: the list of `(level side, smoothing)`
pairs the levels run with. -/
def dsTrace (l : ℕ) (s : α) : List (ℕ × α) :=
  if h : 2 ≤ l then (l, s / 2) :: dsTrace (l / 2) (s / 2) else []
termination_by l
decreasing_by exact Nat.div_lt_self (by omega) (by omega)

/-- Rectangularity invariant of the transient heightmap: `segments + 1` rows
of `segments + 1` entries each. -/
def hmRect (seg : ℕ) (hm : List (List α)) : Prop :=
  hm.length = seg + 1 ∧ ∀ i row, hm.get? i = some row → row.length = seg + 1

/-- Checked grid elevation addition `g[k].z += v`. -/
def gridAddZChecked (g : Grid α) (k : ℕ) (v : α) : Option (Grid α) :=
  match g.get? k with
  | some _ => some (addZ g k v)
  | none => none

/-- The apply loop (`util/generators.ts` lines 207-211):
`g[j * xl + i].z += heightmap[i][j]`. -/
def dsApply (g : Grid α) (hm : List (List α)) (xl yl : ℕ) : Option (Grid α) :=
  foldO (fun g1 i =>
    foldO (fun g2 j =>
      (hmGet hm i j).bind fun z => gridAddZChecked g2 (j * xl + i) z)
      g1 (List.range yl))
    g (List.range xl)

/-- Embedding of `DiamondSquare` (`util/generators.ts` lines 145-214): build
the `(segments + 1)²` zero heightmap, run the level loop starting from side
`segments` and smoothing `maxHeight - minHeight`, and add the heightmap into
the grid. `none` would indicate an out-of-range access somewhere in the run. -/
def DiamondSquare (rnd : ℕ → α) (g : Grid α) (options : TerrainOptions α) :
    Option (Grid α) :=
  (dsLoop rnd (dsSegments options.widthSegments options.heightSegments)
    (dsSegments options.widthSegments options.heightSegments)
    (options.maxHeight - options.minHeight)
    (List.replicate (dsSegments options.widthSegments options.heightSegments + 1)
      (List.replicate (dsSegments options.widthSegments options.heightSegments + 1) 0),
     0)).bind
    fun st => dsApply g st.1 (options.widthSegments + 1) (options.heightSegments + 1)

/-! ## Height clamping (`util/filters.ts`)

Modelled from the spec: the file `util/filters.ts` (exporting
`applyTerrainClamp`, `applyTerrainStep`, `applyTerrainSmooth`,
`applyTurbulenceTurbulence`, `SmoothMedian`) is not among the sources. §4.5
of the spec describes height clamping as: any z outside `[minHeight,
maxHeight]` is squeezed back into the range; `stretch` decides whether the
easing remap applies to all values or only to out-of-range ones; the easing
function remaps the normalized position of `z` inside the actual data range
to `[0, 1]` before scaling back to the configured height range. The data
minimum/maximum fold (the JS loop starting from `±Infinity`) is modelled by
folding from the first element, which agrees on every nonempty grid. -/
def applyTerrainClamp (g : Grid α) (minH maxH : α) (stretch : Bool)
    (easing : α → α) : Grid α :=
  let zs := g.map Vec3.z
  let zMin := zs.foldl min (zs.headD 0)
  let zMax := zs.foldl max (zs.headD 0)
  g.map fun v =>
    if stretch || decide (v.z < minH) || decide (maxH < v.z) then
      ⟨v.x, v.y, easing ((v.z - zMin) / (zMax - zMin)) * (maxH - minH) + minH⟩
    else v

/-! ## Value noise (`util/generators.ts` lines 357-458)

`WhiteNoise` walks the `data` buffer with JS index arithmetic that can go
negative (`lastX`/`lastY` start at `-inc`), so indices are modelled in `ℤ`.
A `Float64Array` read through `data[idx] || t` falls back to `t` both when
`idx` is out of range (`undefined`) and when the stored value is `0`
(falsy); a write at a negative index is skipped by the source's own
`if (z < 0) continue` and an out-of-range write on a typed array is silently
dropped. -/

/-- The `data[idx] || t` read. -/
def dataRead (data : List α) (idx : ℤ) (t : α) : α :=
  if h : 0 ≤ idx ∧ idx.toNat < data.length then
    let v := data.getD idx.toNat 0
    if v = 0 then t else v
  else t

/-- Checked-but-silent typed-array write: out-of-range writes are dropped. -/
def dataWrite (data : List α) (idx : ℤ) (v : α) : List α :=
  if 0 ≤ idx then data.set idx.toNat v else data

/-- The body of the `WhiteNoise` sampling walk (`util/generators.ts` lines
375-401) for one cell `(i, j)` of the coarse lattice: write a fresh random
sample at `k = j * xl + i`, then (except on the very first cells, where
`lastX < 0 ∧ lastY < 0` triggers the source's `continue`) bilinearly
interpolate the block between `(lastX, lastY)` and `(i, j)` from the corner
samples `t`, `l`, `b`, `c`, finally recording `lastY = j`. The interpolated
value is `py * r2 + (1 - py) * r1` with `r1 = px * b + (1 - px) * c` and
`r2 = px * t + (1 - px) * l` written inline. The state is
`(data, ctr, lastX, lastY)` with `ctr` the number of random draws consumed. -/
def whiteNoiseStep (rnd : ℕ → α) (range : α) (xl inc : ℕ)
    (st : List α × ℕ × ℤ × ℤ) (ij : ℕ × ℕ) : List α × ℕ × ℤ × ℤ :=
  match st with
  | (data, ctr, lastX, lastY) =>
    let i := ij.1
    let j := ij.2
    let k := j * xl + i
    let data1 := dataWrite data (k : ℤ) (rnd ctr * range)
    if lastX < 0 ∧ lastY < 0 then (data1, ctr + 1, lastX, lastY)
    else
      let t := data1.getD k 0
      let l := dataRead data1 ((j : ℤ) * xl + ((i : ℤ) - inc)) t
      let b := dataRead data1 (((j : ℤ) - inc) * xl + i) t
      let c := dataRead data1 (((j : ℤ) - inc) * xl + ((i : ℤ) - inc)) t
      let xs := (List.range ((i - lastX).toNat)).map fun u => lastX + u
      let ys := (List.range ((j - lastY).toNat)).map fun u => lastY + u
      let data2 := xs.foldl (fun dataX x =>
        ys.foldl (fun dataY y =>
          if x = lastX ∧ y = lastY then dataY
          else if y * xl + x < 0 then dataY
          else
            let px := ((x - lastX : ℤ) : α) / (inc : α)
            let py := ((y - lastY : ℤ) : α) / (inc : α)
            dataWrite dataY (y * xl + x)
              (py * (px * t + (1 - px) * l) + (1 - py) * (px * b + (1 - px) * c)))
          dataX) data1
      (data2, ctr + 1, lastX, (j : ℤ))

/-- The full `WhiteNoise` sampling walk: iterate `whiteNoiseStep` over the
coarse lattice `i, j ∈ {0, inc, 2·inc, ...} ∩ [0, segments]` (`i` outer, `j`
inner), resetting `lastX := i` and `lastY := -inc` after each column, starting
from `lastX = lastY = -inc`. -/
def whiteNoiseScanState (rnd : ℕ → α) (range : α) (segments inc : ℕ)
    (data : List α) (ctr : ℕ) : List α × ℕ × ℤ × ℤ :=
  ((List.range (segments / inc + 1)).map fun t2 => t2 * inc).foldl
    (fun st i =>
      let st2 := ((List.range (segments / inc + 1)).map fun t2 => t2 * inc).foldl
        (fun s j => whiteNoiseStep rnd range segments inc s (i, j)) st
      (st2.1, st2.2.1, (i : ℤ), -(inc : ℤ)))
    (data, ctr, -(inc : ℤ), -(inc : ℤ))

/-- Embedding of `WhiteNoise` (`util/generators.ts` lines 357-414): for
`scale > segments` return immediately; otherwise run the sampling walk with
`inc = ⌊segments / scale⌋` and add the resulting heightmap into the grid
(`g[j * xl + i].z += data[j * segments + i]`). Returns the mutated grid, the
`data` buffer and the updated draw counter. -/
def WhiteNoise (rnd : ℕ → α) (g : Grid α) (options : TerrainOptions α)
    (scale segments : ℕ) (range : α) (data : List α) (ctr : ℕ) :
    Grid α × List α × ℕ :=
  if scale > segments then (g, data, ctr)
  else
    (ijFold (options.widthSegments + 1) (options.heightSegments + 1)
      (fun i j v => ⟨v.x, v.y, v.z +
        (whiteNoiseScanState rnd range segments (segments / scale) data ctr).1.getD
          (j * segments + i) 0⟩) g,
     (whiteNoiseScanState rnd range segments (segments / scale) data ctr).1,
     (whiteNoiseScanState rnd range segments (segments / scale) data ctr).2.1)

/-- Embedding of `generateFromValueNoise` (`util/generators.ts` lines
425-458): layer `WhiteNoise` at scales `2^2 .. 2^6` with amplitudes
`range * 2^(2.4 - 1.2 i)` (the real power `Math.pow(2, ...)` is the abstract
parameter `pow2F`), then clamp with `stretch = true` and `Linear` easing.
`seed` is never called. -/
def generateFromValueNoise (pow2F : α → α) (rnd : ℕ → α) (seedSt : α)
    (g : Grid α) (options : TerrainOptions α) : α × Grid α :=
  let segments := (max options.widthSegments options.heightSegments + 1) ^ 2
  let data0 : List α := List.replicate ((segments + 1) * (segments + 1)) 0
  let range := options.maxHeight - options.minHeight
  let res := (List.range 5).foldl (fun (st : Grid α × List α × ℕ) i3 =>
      let i : ℕ := i3 + 2
      WhiteNoise rnd st.1 options (2 ^ i) segments
        (range * pow2F ((12 : α) / 5 - (i : α) * (6 / 5))) st.2.1 st.2.2)
    (g, data0, 0)
  (seedSt, applyTerrainClamp res.1 options.minHeight options.maxHeight true Linear)

/-- Embedding of `Weierstrass` (`util/generators.ts` lines 469-505): ten
random draws fix the direction and rate coefficients, each vertex receives
`sum * range` with `sum` a 20-term double Weierstrass-type series, and the
result is clamped with the caller's options. `seed` is not called. -/
def Weierstrass (sinF cosF expF : α → α) (rnd : ℕ → α) (seedSt : α)
    (g : Grid α) (options : TerrainOptions α) : α × Grid α :=
  let range := (options.maxHeight - options.minHeight) * (1 / 2)
  let dir1 : α := if rnd 0 < 1 / 2 then 1 else -1
  let dir2 : α := if rnd 1 < 1 / 2 then 1 else -1
  let r11 := 1 / 2 + rnd 2 * 1
  let r12 := 1 / 2 + rnd 3 * 1
  let r13 := (1 / 40 : α) + rnd 4 * (1 / 10)
  let r14 := -1 + rnd 5 * 2
  let r21 := 1 / 2 + rnd 6 * 1
  let r22 := 1 / 2 + rnd 7 * 1
  let r23 := (1 / 40 : α) + rnd 8 * (1 / 10)
  let r24 := -1 + rnd 9 * 2
  let g2 := ijFold (options.widthSegments + 1) (options.heightSegments + 1)
    (fun i j v =>
      let sum := (List.range 20).foldl (fun acc k =>
        let xt := (1 + r11)⁻¹ ^ k *
          sinF ((1 + r12) ^ k * ((i : α) + (1 / 4) * cosF (j : α) + r14 * (j : α)) * r13)
        let yt := (1 + r21)⁻¹ ^ k *
          sinF ((1 + r22) ^ k * ((j : α) + (1 / 4) * cosF (i : α) + r24 * (i : α)) * r23)
        acc - expF (dir1 * xt * xt + dir2 * yt * yt)) 0
      ⟨v.x, v.y, v.z + sum * range⟩) g
  (seedSt, applyTerrainClamp g2 options.minHeight options.maxHeight
    options.stretch options.easing)

/-! ## Normalization pipeline (`src/components/box.tsx` lines 84-95)

`normalizeTerrain` is embedded with the four filters as explicit function
parameters (their defining file `util/filters.ts` is not among the sources,
and the claims about `normalizeTerrain` hold for every filter
implementation). The `after` hook returns the grid it leaves behind together
with `some error` when it throws; `normalizeTerrain` returns the final grid
and the propagated error, `none` meaning a normal return. -/
def normalizeTerrain
    (turbF : Grid α → TerrainOptions α → Grid α)
    (stepF : Grid α → α → Grid α)
    (smoothF : Grid α → TerrainOptions α → Grid α)
    (clampF : Grid α → TerrainOptions α → Grid α)
    (vertices : Grid α) (options : TerrainOptions α) : Grid α × Option String :=
  let g1 := if options.turbulent then turbF vertices options else vertices
  let g2 := if options.steps ≠ 0 ∧ 1 < options.steps
    then smoothF (stepF g1 options.steps) options else g1
  let g3 := clampF g2 options
  match options.after with
  | some f => f g3
  | none => (g3, none)

/-- Claim-side description of the normalization pipeline before the `after`
hook: turbulence iff `turbulent`, step quantization followed by smoothing iff
`steps > 1`, then clamping. -/
def normalizePipeline
    (turbF : Grid α → TerrainOptions α → Grid α)
    (stepF : Grid α → α → Grid α)
    (smoothF : Grid α → TerrainOptions α → Grid α)
    (clampF : Grid α → TerrainOptions α → Grid α)
    (vertices : Grid α) (options : TerrainOptions α) : Grid α :=
  clampF
    ((if 1 < options.steps then
        fun g1 => smoothF (stepF g1 options.steps) options
      else id)
      ((if options.turbulent then fun g0 => turbF g0 options else id) vertices))
    options

/-- Claim-side contribution of a doubly indexed generator loop at flat index
`m`: the vertex at `m` receives `w (m % xl) (m / xl)` when `m` is inside the
`xl × yl` window and nothing otherwise. -/
def gridIndexContrib (xl yl : ℕ) (w : ℕ → ℕ → α) : ℕ → α := fun m =>
  if m / xl < yl then w (m % xl) (m / xl) else 0

/-- Claim-side contribution function of `Cosine`. -/
def CosineContrib (cosF : α → α) (piv : α) (rnd : ℕ → α)
    (options : TerrainOptions α) : ℕ → α :=
  let amplitude := (options.maxHeight - options.minHeight) * (1 / 2)
  let frequencyScalar := options.frequency * piv /
    ((min options.widthSegments options.heightSegments + 1 : ℕ) : α)
  let phase := rnd 0 * piv * 2
  gridIndexContrib (options.widthSegments + 1) (options.heightSegments + 1)
    fun i j => amplitude * (cosF ((i : α) * frequencyScalar + phase) +
      cosF ((j : α) * frequencyScalar + phase))

/-- Claim-side contribution function of `Perlin`. -/
def PerlinContrib (perlinF : α → α → α → α) (rnd : ℕ → α)
    (options : TerrainOptions α) : ℕ → α :=
  let seed2 := rnd 0
  let range := (options.maxHeight - options.minHeight) * (1 / 2)
  let divisor := ((min options.widthSegments options.heightSegments + 1 : ℕ) : α) /
    options.frequency
  gridIndexContrib (options.widthSegments + 1) (options.heightSegments + 1)
    fun i j => perlinF seed2 ((i : α) / divisor) ((j : α) / divisor) * range

/-- Claim-side contribution function of `Simplex`. -/
def SimplexContrib (simplexF : α → α → α → α) (rnd : ℕ → α)
    (options : TerrainOptions α) : ℕ → α :=
  let seed2 := rnd 0
  let range := (options.maxHeight - options.minHeight) * (1 / 2)
  let divisor := ((min options.widthSegments options.heightSegments + 1 : ℕ) : α) * 2 /
    options.frequency
  gridIndexContrib (options.widthSegments + 1) (options.heightSegments + 1)
    fun i j => simplexF seed2 ((i : α) / divisor) ((j : α) / divisor) * range

/-- Claim-side per-vertex displacement of one `Fault` iteration. -/
def FaultDelta (sinF cosF sqrtF : α → α) (piv : α) (rnd : ℕ → α)
    (options : TerrainOptions α) (k : ℕ) : ℕ → ℕ → α := fun i j =>
  let ws := options.widthSegments
  let hs := options.heightSegments
  let d := sqrtF ((ws : α) * (ws : α) + (hs : α) * (hs : α))
  let iterations := d * options.frequency
  let range := (options.maxHeight - options.minHeight) * (1 / 2)
  let displacement := range / iterations
  let smoothDistance :=
    min (options.width / (ws : α)) (options.height / (hs : α)) * options.frequency
  let v := rnd (2 * k)
  let a := sinF (v * piv * 2)
  let b := cosF (v * piv * 2)
  let c := rnd (2 * k + 1) * d - d * (1 / 2)
  let distance := a * (i : α) + b * (j : α) - c
  if smoothDistance < distance then displacement
  else if distance < -smoothDistance then -displacement
  else cosF (distance / smoothDistance * piv * 2) * displacement

/-- Claim-side contribution function of `Fault`: the sum of the per-iteration
displacements. -/
def FaultContrib (sinF cosF sqrtF : α → α) (piv : α) (rnd : ℕ → α)
    (options : TerrainOptions α) [FloorRing α] : ℕ → α := fun m =>
  let ws := options.widthSegments
  let hs := options.heightSegments
  let d := sqrtF ((ws : α) * (ws : α) + (hs : α) * (hs : α))
  let iterations := d * options.frequency
  ((List.range ⌈iterations⌉₊).map fun k =>
    gridIndexContrib (ws + 1) (hs + 1) (FaultDelta sinF cosF sqrtF piv rnd options k) m).sum

/-! ## Concrete values used by witnesses and counterexamples -/

/-- Concrete options: widthSegments = heightSegments = 1. -/
def optsQ1 : TerrainOptions ℚ :=
  { widthSegments := 1, heightSegments := 1, width := 10, height := 10,
    minHeight := 0, maxHeight := 10, frequency := 1, steps := 1,
    stretch := true, turbulent := false, easing := Linear, after := none }

/-- Concrete four-vertex grid used by witnesses. -/
def gridQ4 : Grid ℚ :=
  [⟨0, 0, 3⟩, ⟨1, 0, 7⟩, ⟨0, 1, -2⟩, ⟨1, 1, 5⟩]

/-- A concrete `after` hook that throws, leaving the grid it received. -/
def afterBoom : Grid ℚ → Grid ℚ × Option String := fun g => (g, some "boom")

/-- The concrete options with the throwing `after` hook installed. -/
def optsQ1After : TerrainOptions ℚ := { optsQ1 with after := some afterBoom }

/-- First initial grid for the superposition counterexample. -/
def gridA : Grid ℚ := [⟨0, 0, 0⟩, ⟨1, 0, 1⟩, ⟨0, 1, 0⟩, ⟨1, 1, 0⟩]

/-- Second initial grid for the superposition counterexample; it differs from
`gridA` only in the elevation of vertex 1. -/
def gridB : Grid ℚ := [⟨0, 0, 0⟩, ⟨1, 0, 2⟩, ⟨0, 1, 0⟩, ⟨1, 1, 0⟩]

/-! ## Basic lemmas about the list and Option helpers -/

@[simp] theorem modV_nil (k : ℕ) (f : Vec3 α → Vec3 α) : modV [] k f = [] := rfl

@[simp] theorem modV_length (g : Grid α) (k : ℕ) (f : Vec3 α → Vec3 α) :
    (modV g k f).length = g.length := by
  induction g generalizing k with
  | nil => rfl
  | cons v t ih =>
    cases k with
    | zero => rfl
    | succ k => simpa [modV] using ih k

theorem modV_get? (g : Grid α) (k : ℕ) (f : Vec3 α → Vec3 α) (m : ℕ) :
    (modV g k f).get? m = if m = k then (g.get? m).map f else g.get? m := by
  induction g generalizing k m with
  | nil => simp [modV]
  | cons v t ih =>
    cases k with
    | zero =>
      cases m with
      | zero => simp [modV]
      | succ m => simp [modV, Nat.succ_ne_zero]
    | succ k =>
      cases m with
      | zero => simp [modV]
      | succ m => simpa [modV, Nat.succ_inj] using ih k m

@[simp] theorem zAddC_length (g : Grid α) (c : ℕ → α) :
    (zAddC g c).length = g.length := by
  induction g generalizing c with
  | nil => rfl
  | cons v t ih => simpa [zAddC] using ih _

theorem zAddC_get? (g : Grid α) (c : ℕ → α) (m : ℕ) :
    (zAddC g c).get? m = (g.get? m).map fun v => ⟨v.x, v.y, v.z + c m⟩ := by
  induction g generalizing c m with
  | nil => simp [zAddC]
  | cons v t ih =>
    cases m with
    | zero => simp [zAddC]
    | succ m => simpa [zAddC] using ih (fun k => c (k + 1)) m

theorem zAddC_comp (g : Grid α) (c1 c2 : ℕ → α) :
    zAddC (zAddC g c1) c2 = zAddC g fun k => c1 k + c2 k := by
  induction g generalizing c1 c2 with
  | nil => rfl
  | cons v t ih => simp [zAddC, ih, add_assoc]

theorem zAddC_zero (g : Grid α) : zAddC g (fun _ => (0 : α)) = g := by
  induction g with
  | nil => rfl
  | cons v t ih => simp [zAddC, ih]

@[simp] theorem foldO_nil {σ β : Type} (f : σ → β → Option σ) (s : σ) :
    foldO f s [] = some s := rfl

theorem foldO_cons {σ β : Type} (f : σ → β → Option σ) (s : σ) (b : β) (t : List β) :
    foldO f s (b :: t) = (f s b).bind fun s2 => foldO f s2 t := by
  cases h : f s b <;> simp [foldO, h]

theorem foldO_append {σ β : Type} (f : σ → β → Option σ) (s : σ) (l1 l2 : List β) :
    foldO f s (l1 ++ l2) = (foldO f s l1).bind fun s2 => foldO f s2 l2 := by
  induction l1 generalizing s with
  | nil => simp
  | cons b t ih =>
    rw [List.cons_append, foldO_cons, foldO_cons]
    cases h : f s b <;> simp [ih]

/-- Success of an invariant-preserving `foldO`. -/
theorem foldO_invariant {σ β : Type} (P : σ → Prop) (f : σ → β → Option σ)
    (l : List β) (s : σ) (h0 : P s)
    (hf : ∀ s2 b, P s2 → b ∈ l → ∃ s3, f s2 b = some s3 ∧ P s3) :
    ∃ s4, foldO f s l = some s4 ∧ P s4 := by
  induction l generalizing s with
  | nil => exact ⟨s, rfl, h0⟩
  | cons b t ih =>
    obtain ⟨s3, hs3, hp3⟩ := hf s b h0 (List.mem_cons_self b t)
    rw [foldO_cons, hs3, Option.some_bind]
    exact ih s3 hp3 fun s2 b2 hp hm => hf s2 b2 hp (List.mem_cons_of_mem b hm)

/-- A `foldO` each of whose steps succeeds without changing the state is the
identity. -/
theorem foldO_fixed {σ β : Type} (f : σ → β → Option σ) (l : List β) (s : σ)
    (hf : ∀ b ∈ l, f s b = some s) : foldO f s l = some s := by
  induction l with
  | nil => rfl
  | cons b t ih =>
    rw [foldO_cons, hf b (List.mem_cons_self b t), Option.some_bind]
    exact ih fun b2 hm => hf b2 (List.mem_cons_of_mem b hm)

/-- A `foldO` all of whose steps succeed computes the corresponding plain
`foldl`. -/
theorem foldO_eq_foldl {σ β : Type} (P : σ → Prop) (f : σ → β → Option σ)
    (g : σ → β → σ) (l : List β) (s : σ) (h0 : P s)
    (hf : ∀ s2 b, P s2 → b ∈ l → f s2 b = some (g s2 b) ∧ P (g s2 b)) :
    foldO f s l = some (l.foldl g s) := by
  induction l generalizing s with
  | nil => rfl
  | cons b t ih =>
    obtain ⟨hs, hp⟩ := hf s b h0 (List.mem_cons_self b t)
    rw [foldO_cons, hs, Option.some_bind, List.foldl_cons]
    exact ih (g s b) hp fun s2 b2 hq hm => hf s2 b2 hq (List.mem_cons_of_mem b hm)

theorem seqO_map_some {β γ : Type} (l : List β) (h : β → Option γ) (f : β → γ)
    (H : ∀ b ∈ l, h b = some (f b)) : seqO (l.map h) = some (l.map f) := by
  induction l with
  | nil => rfl
  | cons b t ih =>
    have ht := ih fun b2 hm => H b2 (List.mem_cons_of_mem b hm)
    simp only [List.map_cons, seqO, H b (List.mem_cons_self b t), ht,
      Option.some_bind, Option.map_some']

/-! ## Facts about the grid adapters -/

theorem index_lt_of_lt {i j xl yl : ℕ} (hi : i < xl) (hj : j < yl) :
    j * xl + i < xl * yl := by
  calc j * xl + i < j * xl + xl := by omega
    _ = (j + 1) * xl := by ring
    _ ≤ yl * xl := Nat.mul_le_mul_right xl hj
    _ = xl * yl := Nat.mul_comm yl xl

theorem setZ_self (g : Grid α) (k : ℕ) (v : Vec3 α) (h : g.get? k = some v) :
    setZ g k v.z = g := by
  induction g generalizing k with
  | nil => simp at h
  | cons w t ih =>
    cases k with
    | zero =>
      simp only [List.get?_cons_zero, Option.some_inj] at h
      subst h
      rfl
    | succ k =>
      simp only [List.get?_cons_succ] at h
      simpa [setZ, modV] using ih k h

theorem toArray2D_eq (g : Grid α) (opts : TerrainOptions α)
    (h : (opts.widthSegments + 1) * (opts.heightSegments + 1) ≤ g.length) :
    toArray2D g opts =
      some ((List.range (opts.widthSegments + 1)).map fun i =>
        (List.range (opts.heightSegments + 1)).map fun j =>
          ((g.get? (j * (opts.widthSegments + 1) + i)).map Vec3.z).getD 0) := by
  unfold toArray2D
  refine seqO_map_some _ _ _ fun i hi => ?_
  rw [List.mem_range] at hi
  refine seqO_map_some _ _ _ fun j hj => ?_
  rw [List.mem_range] at hj
  have hk : j * (opts.widthSegments + 1) + i < g.length :=
    Nat.lt_of_lt_of_le (index_lt_of_lt hi hj) h
  obtain ⟨v, hv⟩ : ∃ v, g.get? (j * (opts.widthSegments + 1) + i) = some v :=
    ⟨_, List.get?_eq_get hk⟩
  rw [hv]
  rfl

/-- C2: converting a correctly sized vertex grid with `toArray2D` and writing
the resulting 2D array straight back with `fromArray2D` succeeds and leaves
every vertex (in particular its elevation `z`) exactly equal to its original
value. -/
theorem roundtrip_toArray2D_fromArray2D (g : Grid α) (opts : TerrainOptions α)
    (h : g.length = (opts.widthSegments + 1) * (opts.heightSegments + 1)) :
    ∃ arr, toArray2D g opts = some arr ∧ fromArray2D g arr = some g := by
  set xl := opts.widthSegments + 1 with hxl
  set yl := opts.heightSegments + 1 with hyl
  refine ⟨_, toArray2D_eq g opts (le_of_eq h.symm), ?_⟩
  set arr := (List.range xl).map fun i =>
    (List.range yl).map fun j => ((g.get? (j * xl + i)).map Vec3.z).getD 0
    with harr
  have harrlen : arr.length = xl := by simp [harr]
  unfold fromArray2D
  rw [harrlen]
  refine foldO_fixed _ _ _ fun i hi => ?_
  rw [List.mem_range] at hi
  have hrow : arr.getD i [] =
      (List.range yl).map fun j => ((g.get? (j * xl + i)).map Vec3.z).getD 0 := by
    simp [harr, List.getD_eq_getElem?_getD, hi]
  rw [hrow, List.length_map, List.length_range]
  refine foldO_fixed _ _ _ fun j hj => ?_
  rw [List.mem_range] at hj
  have hk : j * xl + i < g.length := by
    rw [h]; exact index_lt_of_lt hi hj
  obtain ⟨v, hv⟩ : ∃ v, g.get? (j * xl + i) = some v := ⟨_, List.get?_eq_get hk⟩
  have hval : (((List.range yl).map fun j2 =>
      ((g.get? (j2 * xl + i)).map Vec3.z).getD 0).getD j 0) = v.z := by
    simp [List.getD_eq_getElem?_getD, List.getElem?_map, List.getElem?_range, hj,
      ← List.get?_eq_getElem?, hv]
  rw [hval, setZChecked, hv]
  exact congrArg some (setZ_self g _ v hv)

/-- C3 counterexample: `fromArray2D` does not truncate to the shorter length.
On an empty vertex list and the one-element source `[[5]]` it attempts the
write `vertices[0].z = 5` and throws (result `none`); silent truncation would
have returned the vertex list unchanged (`some []`). -/
theorem fromArray2D_no_truncation_cex :
    fromArray2D ([] : Grid ℚ) [[(5 : ℚ)]] = none ∧
      fromArray2D ([] : Grid ℚ) [[(5 : ℚ)]] ≠ some [] := by
  constructor
  · rfl
  · intro h
    simp [fromArray2D, foldO, setZChecked] at h

/-- C3 (amended): `fromArray1D` silently truncates to the shorter length:
it writes exactly `min vertices.length src.length` elevations, never fails,
and leaves every other vertex (and every `x`/`y` channel) unchanged.
`fromArray2D` does not truncate: it attempts every element of `src`
(erroring when a target vertex is missing, see the counterexample), and when
every target index is present it succeeds, preserving the length and leaving
every non-targeted vertex unchanged. -/
theorem writeback_truncation_behavior :
    (∀ (g : Grid α) (src : List α),
      (fromArray1D g src).length = g.length ∧
      (∀ k, k < min g.length src.length →
        (fromArray1D g src).get? k =
          (g.get? k).map fun v => ⟨v.x, v.y, src.getD k 0⟩) ∧
      (∀ k, min g.length src.length ≤ k →
        (fromArray1D g src).get? k = g.get? k)) ∧
    (∀ (g : Grid α) (src : List (List α)),
      (∀ i, i < src.length → ∀ j, j < (src.getD i []).length →
        j * src.length + i < g.length) →
      ∃ g2, fromArray2D g src = some g2 ∧ g2.length = g.length ∧
        ∀ k, (∀ i, i < src.length → ∀ j, j < (src.getD i []).length →
            j * src.length + i ≠ k) →
          g2.get? k = g.get? k) := by
  constructor
  · intro g src
    have main : ∀ n, n ≤ min g.length src.length →
        ((List.range n).foldl (fun g1 i => setZ g1 i (src.getD i 0)) g).length
            = g.length ∧
        (∀ k, k < n →
          ((List.range n).foldl (fun g1 i => setZ g1 i (src.getD i 0)) g).get? k =
            (g.get? k).map fun v => ⟨v.x, v.y, src.getD k 0⟩) ∧
        (∀ k, n ≤ k →
          ((List.range n).foldl (fun g1 i => setZ g1 i (src.getD i 0)) g).get? k =
            g.get? k) := by
      intro n hn
      induction n with
      | zero => exact ⟨rfl, fun k hk => absurd hk (Nat.not_lt_zero k), fun k _ => rfl⟩
      | succ n ih =>
        obtain ⟨ihlen, ihlt, ihge⟩ := ih (Nat.le_of_succ_le hn)
        rw [List.range_succ, List.foldl_append, List.foldl_cons, List.foldl_nil]
        refine ⟨by rw [setZ, modV_length, ihlen], fun k hk => ?_, fun k hk => ?_⟩
        · rw [setZ, modV_get?]
          rcases Nat.lt_or_ge k n with hlt | hge
          · rw [if_neg (by omega), ihlt k hlt]
          · have hkn : k = n := by omega
            subst hkn
            rw [if_pos rfl, ihge k le_rfl]
        · rw [setZ, modV_get?, if_neg (by omega), ihge k (by omega)]
    exact main (min g.length src.length) le_rfl
  · intro g src H
    set xl := src.length
    have step : ∀ (g2 : Grid α) (i : ℕ), i ∈ List.range xl →
        (g2.length = g.length ∧
          ∀ k, (∀ i2, i2 < src.length → ∀ j, j < (src.getD i2 []).length →
              j * src.length + i2 ≠ k) → g2.get? k = g.get? k) →
        ∃ g3, foldO (fun g4 j => setZChecked g4 (j * xl + i) ((src.getD i []).getD j 0))
            g2 (List.range (src.getD i []).length) = some g3 ∧
          (g3.length = g.length ∧
            ∀ k, (∀ i2, i2 < src.length → ∀ j, j < (src.getD i2 []).length →
                j * src.length + i2 ≠ k) → g3.get? k = g.get? k) := by
      intro g2 i hi hp
      rw [List.mem_range] at hi
      refine foldO_invariant _ _ _ _ hp fun g3 j hp3 hj => ?_
      rw [List.mem_range] at hj
      have htgt : j * xl + i < g3.length := by
        rw [hp3.1]; exact H i hi j hj
      obtain ⟨v, hv⟩ : ∃ v, g3.get? (j * xl + i) = some v :=
        ⟨_, List.get?_eq_get htgt⟩
      refine ⟨setZ g3 (j * xl + i) ((src.getD i []).getD j 0), ?_, ?_, ?_⟩
      · rw [setZChecked, hv]
      · rw [setZ, modV_length, hp3.1]
      · intro k hk
        rw [setZ, modV_get?, if_neg fun hkk => hk i hi j hj hkk.symm, hp3.2 k hk]
    have := foldO_invariant
      (fun g2 : Grid α => g2.length = g.length ∧
        ∀ k, (∀ i2, i2 < src.length → ∀ j, j < (src.getD i2 []).length →
            j * src.length + i2 ≠ k) → g2.get? k = g.get? k)
      (fun g1 i => foldO (fun g4 j => setZChecked g4 (j * xl + i) ((src.getD i []).getD j 0))
        g1 (List.range (src.getD i []).length))
      (List.range xl) g ⟨rfl, fun _ _ => rfl⟩
      (fun g2 i hp hi => step g2 i hi hp)
    obtain ⟨g2, hrun, hlen, hpres⟩ := this
    exact ⟨g2, hrun, hlen, hpres⟩

theorem roundtrip_toArray2D_fromArray2D_witness :
    gridQ4.length = (optsQ1.widthSegments + 1) * (optsQ1.heightSegments + 1) ∧
      ∃ arr, toArray2D gridQ4 optsQ1 = some arr ∧
        fromArray2D gridQ4 arr = some gridQ4 :=
  ⟨by decide, roundtrip_toArray2D_fromArray2D gridQ4 optsQ1 (by decide)⟩

theorem writeback_truncation_behavior_witness :
    (fromArray1D gridQ4 [(9 : ℚ)]).length = gridQ4.length ∧
      (∀ i, i < (2 : ℕ) → ∀ j, j < ([[(4 : ℚ)], [(6 : ℚ)]].getD i []).length →
        j * 2 + i < gridQ4.length) ∧
      ∃ g2, fromArray2D gridQ4 [[(4 : ℚ)], [(6 : ℚ)]] = some g2 ∧
        g2.length = gridQ4.length ∧
        ∀ k, (∀ i, i < (2 : ℕ) → ∀ j, j < ([[(4 : ℚ)], [(6 : ℚ)]].getD i []).length →
            j * 2 + i ≠ k) → g2.get? k = gridQ4.get? k := by
  refine ⟨((writeback_truncation_behavior (α := ℚ)).1 gridQ4 [(9 : ℚ)]).1,
    by decide, ?_⟩
  exact (writeback_truncation_behavior (α := ℚ)).2 gridQ4 [[(4 : ℚ)], [(6 : ℚ)]]
    (by decide)

/-- C9: every easing function maps 0 to 0 and 1 to 1 exactly, and the interior
closed forms hold, in particular `EaseIn (1/2) = 1/4`. -/
theorem easing_boundary_values :
    Linear (0 : ℝ) = 0 ∧ Linear (1 : ℝ) = 1 ∧
    EaseIn (0 : ℝ) = 0 ∧ EaseIn (1 : ℝ) = 1 ∧
    EaseOut (0 : ℝ) = 0 ∧ EaseOut (1 : ℝ) = 1 ∧
    EaseInOut (0 : ℝ) = 0 ∧ EaseInOut (1 : ℝ) = 1 ∧
    EaseInWeak 0 = 0 ∧ EaseInWeak 1 = 1 ∧
    EaseInStrong (0 : ℝ) = 0 ∧ EaseInStrong (1 : ℝ) = 1 ∧
    InEaseOut (0 : ℝ) = 0 ∧ InEaseOut (1 : ℝ) = 1 ∧
    EaseIn (1 / 2 : ℝ) = 1 / 4 := by
  refine ⟨rfl, rfl, by norm_num [EaseIn], by norm_num [EaseIn],
    by norm_num [EaseOut], by norm_num [EaseOut],
    by norm_num [EaseInOut], by norm_num [EaseInOut],
    ?_, ?_, by norm_num [EaseInStrong], by norm_num [EaseInStrong],
    by norm_num [InEaseOut], by norm_num [InEaseOut], by norm_num [EaseIn]⟩
  · rw [EaseInWeak]
    exact Real.zero_rpow (by norm_num)
  · rw [EaseInWeak]
    exact Real.one_rpow _

/-! ## Pointwise description of the doubly indexed loop -/

theorem foldl_modV_length {β : Type} (L : List β) (tgt : β → ℕ)
    (fn : β → Vec3 α → Vec3 α) (g : Grid α) :
    (L.foldl (fun g2 b => modV g2 (tgt b) (fn b)) g).length = g.length := by
  induction L generalizing g with
  | nil => rfl
  | cons b t ih => rw [List.foldl_cons, ih, modV_length]

theorem ijFold_inner_get? (xl : ℕ) (f : ℕ → ℕ → Vec3 α → Vec3 α) (i : ℕ)
    (hi : i < xl) (q : ℕ) (g : Grid α) (m : ℕ) :
    ((List.range q).foldl (fun g2 j => modV g2 (j * xl + i) (f i j)) g).get? m =
      if m % xl = i ∧ m / xl < q then (g.get? m).map (f i (m / xl))
      else g.get? m := by
  induction q generalizing g with
  | zero => simp
  | succ q ih =>
    rw [List.range_succ, List.foldl_append, List.foldl_cons, List.foldl_nil,
      modV_get?, ih]
    by_cases hm : m = q * xl + i
    · subst hm
      have hmod : (q * xl + i) % xl = i := by
        rw [Nat.add_comm, Nat.add_mul_mod_self_right, Nat.mod_eq_of_lt hi]
      have hdiv : (q * xl + i) / xl = q := by
        rw [Nat.add_comm, Nat.add_mul_div_right _ _ (by omega : 0 < xl),
          Nat.div_eq_of_lt hi, Nat.zero_add]
      rw [if_pos rfl, if_neg (by rw [hdiv]; omega), if_pos ⟨hmod, by omega⟩, hdiv]
    · rw [if_neg hm]
      by_cases hc : m % xl = i ∧ m / xl < q
      · rw [if_pos hc, if_pos ⟨hc.1, by omega⟩]
      · rw [if_neg hc]
        by_cases hc2 : m % xl = i ∧ m / xl < q + 1
        · exfalso
          have hdq : m / xl = q := by omega
          exact hm (by rw [← Nat.div_add_mod m xl, hc2.1, hdq, Nat.mul_comm])
        · rw [if_neg hc2]

theorem ijFold_get? (xl yl : ℕ) (hxl : 0 < xl) (f : ℕ → ℕ → Vec3 α → Vec3 α)
    (g : Grid α) (m : ℕ) :
    (ijFold xl yl f g).get? m =
      if m / xl < yl then (g.get? m).map (f (m % xl) (m / xl))
      else g.get? m := by
  have main : ∀ p, p ≤ xl → ∀ g : Grid α,
      ((List.range p).foldl
        (fun g1 i => (List.range yl).foldl (fun g2 j => modV g2 (j * xl + i) (f i j)) g1)
        g).get? m =
      if m % xl < p ∧ m / xl < yl then (g.get? m).map (f (m % xl) (m / xl))
      else g.get? m := by
    intro p hp
    induction p with
    | zero => intro g; simp
    | succ p ih =>
      intro g
      rw [List.range_succ, List.foldl_append, List.foldl_cons, List.foldl_nil,
        ijFold_inner_get? xl f p (by omega) yl _ m, ih (by omega)]
      by_cases hmp : m % xl = p
      · by_cases hdy : m / xl < yl
        · rw [if_pos ⟨hmp, hdy⟩, if_neg (by omega), if_pos ⟨by omega, hdy⟩, hmp]
        · rw [if_neg (by simp [hdy]), if_neg (by simp [hdy]), if_neg (by simp [hdy])]
      · rw [if_neg (by simp [hmp]),
          if_congr (show (m % xl < p ∧ m / xl < yl) ↔ m % xl < p + 1 ∧ m / xl < yl
            by omega) rfl rfl]
  have hmod : m % xl < xl := Nat.mod_lt m hxl
  rw [ijFold, main xl le_rfl g, if_congr (by omega : (m % xl < xl ∧ m / xl < yl) ↔ m / xl < yl) rfl rfl]

theorem ijFold_length (xl yl : ℕ) (f : ℕ → ℕ → Vec3 α → Vec3 α) (g : Grid α) :
    (ijFold xl yl f g).length = g.length := by
  rw [ijFold]
  induction (List.range xl) generalizing g with
  | nil => rfl
  | cons i t ih => rw [List.foldl_cons, ih, foldl_modV_length]

/-- An additive doubly indexed loop is a pointwise elevation shift. -/
theorem ijFold_eq_zAddC (xl yl : ℕ) (hxl : 0 < xl) (w : ℕ → ℕ → α) (g : Grid α) :
    ijFold xl yl (fun i j v => ⟨v.x, v.y, v.z + w i j⟩) g =
      zAddC g (gridIndexContrib xl yl w) := by
  refine List.ext_get? fun m => ?_
  rw [ijFold_get? xl yl hxl _ g m, zAddC_get?, gridIndexContrib]
  by_cases hd : m / xl < yl
  · simp [hd]
  · rw [if_neg hd]
    cases g.get? m with
    | none => rfl
    | some v => simp [hd]

/-! ## C1: MultiPass -/

/-- C1: `MultiPass` invokes each pass's method in strict array order on the
shared grid, passing adjusted options in which `maxHeight` drops and
`minHeight` rises by `move = 0.5 * (range - range * amplitude)` (with
`amplitude` defaulting to 1, which leaves the window untouched; a general
amplitude `a` scales the window to `a * range` around the unchanged
midpoint), and `frequency` is the pass's frequency when present, the base
frequency otherwise; an empty pass list is a no-op and raises no error. -/
theorem MultiPass_order_and_adjustment (g : Grid α) (options : TerrainOptions α)
    (passes : List (Pass α)) :
    MultiPass g options passes =
      passes.foldl (fun g1 pass => pass.method g1 (adjustOptions options pass)) g ∧
    MultiPass g options [] = g ∧
    (∀ pass : Pass α,
      (adjustOptions options pass).maxHeight =
        options.maxHeight - (1 / 2) * ((options.maxHeight - options.minHeight) -
          (options.maxHeight - options.minHeight) * pass.amplitude.getD 1) ∧
      (adjustOptions options pass).minHeight =
        options.minHeight + (1 / 2) * ((options.maxHeight - options.minHeight) -
          (options.maxHeight - options.minHeight) * pass.amplitude.getD 1) ∧
      (adjustOptions options pass).frequency = pass.frequency.getD options.frequency ∧
      (adjustOptions options pass).maxHeight - (adjustOptions options pass).minHeight =
        pass.amplitude.getD 1 * (options.maxHeight - options.minHeight) ∧
      (adjustOptions options pass).maxHeight + (adjustOptions options pass).minHeight =
        options.maxHeight + options.minHeight) ∧
    (∀ (method : Grid α → TerrainOptions α → Grid α) (freq : Option α),
      (adjustOptions options ⟨method, none, freq⟩).maxHeight = options.maxHeight ∧
      (adjustOptions options ⟨method, none, freq⟩).minHeight = options.minHeight) := by
  refine ⟨rfl, rfl, fun pass => ⟨rfl, rfl, rfl, ?_, ?_⟩, fun method freq => ⟨?_, ?_⟩⟩
  · simp only [adjustOptions]
    ring
  · simp only [adjustOptions]
    ring
  · simp only [adjustOptions, Option.getD_none]
    ring
  · simp only [adjustOptions, Option.getD_none]
    ring

/-! ## C6 and C7: the normalization pipeline -/

theorem normalizeTerrain_match
    (turbF : Grid α → TerrainOptions α → Grid α) (stepF : Grid α → α → Grid α)
    (smoothF clampF : Grid α → TerrainOptions α → Grid α)
    (g : Grid α) (options : TerrainOptions α) :
    normalizeTerrain turbF stepF smoothF clampF g options =
      match options.after with
      | some f => f (normalizePipeline turbF stepF smoothF clampF g options)
      | none => (normalizePipeline turbF stepF smoothF clampF g options, none) := by
  rw [normalizeTerrain, normalizePipeline]
  by_cases hs : 1 < options.steps
  · have h0 : options.steps ≠ 0 := ne_of_gt (lt_trans zero_lt_one hs)
    simp [hs, h0, ite_apply]
  · simp [hs, ite_apply]

/-- C6: `normalizeTerrain` applies its filters in the fixed order: turbulence
iff `options.turbulent`, step quantization followed by smoothing iff
`options.steps > 1`, then height clamping, and finally — when `options.after`
is a function — the `after` hook is invoked last, on the fully filtered
grid. -/
theorem normalizeTerrain_filter_order
    (turbF : Grid α → TerrainOptions α → Grid α) (stepF : Grid α → α → Grid α)
    (smoothF clampF : Grid α → TerrainOptions α → Grid α)
    (g : Grid α) (options : TerrainOptions α) :
    normalizeTerrain turbF stepF smoothF clampF g options =
      match options.after with
      | some f => f (normalizePipeline turbF stepF smoothF clampF g options)
      | none => (normalizePipeline turbF stepF smoothF clampF g options, none) :=
  normalizeTerrain_match turbF stepF smoothF clampF g options

/-- C7: when the `after` hook throws, the error reaches the caller of
`normalizeTerrain` unchanged (no retry, no suppression), and the resulting
grid is exactly what the hook left behind after receiving the fully filtered
grid — all elevation changes applied before the hook are kept, with no
rollback. -/
theorem normalizeTerrain_after_error_propagates
    (turbF : Grid α → TerrainOptions α → Grid α) (stepF : Grid α → α → Grid α)
    (smoothF clampF : Grid α → TerrainOptions α → Grid α)
    (g : Grid α) (options : TerrainOptions α)
    (f : Grid α → Grid α × Option String) (gErr : Grid α) (e : String)
    (h1 : options.after = some f)
    (h2 : f (normalizePipeline turbF stepF smoothF clampF g options) = (gErr, some e)) :
    normalizeTerrain turbF stepF smoothF clampF g options = (gErr, some e) := by
  rw [normalizeTerrain_match, h1]
  exact h2

/-! ## C4 and C5: additivity and seeding of the generators -/

theorem foldl_ijFold_eq_zAddC (xl yl : ℕ) (hxl : 0 < xl) (W : ℕ → ℕ → ℕ → α)
    (n : ℕ) (g : Grid α) :
    (List.range n).foldl
      (fun g1 k => ijFold xl yl (fun i j v => ⟨v.x, v.y, v.z + W k i j⟩) g1) g =
    zAddC g fun m =>
      ((List.range n).map fun k => gridIndexContrib xl yl (W k) m).sum := by
  induction n with
  | zero =>
    simp only [List.range_zero, List.foldl_nil, List.map_nil, List.sum_nil]
    exact (zAddC_zero g).symm
  | succ n ih =>
    rw [List.range_succ, List.foldl_append, List.foldl_cons, List.foldl_nil, ih,
      ijFold_eq_zAddC xl yl hxl _ _, zAddC_comp]
    refine congrArg (zAddC g) (funext fun m => ?_)
    rw [List.map_append, List.sum_append, List.map_cons, List.map_nil,
      List.sum_cons, List.sum_nil, add_zero]

theorem FaultBody_eq_add (sinF cosF sqrtF : α → α) (piv : α) (rnd : ℕ → α)
    (options : TerrainOptions α) (k i j : ℕ) (w : Vec3 α) :
    FaultBody sinF cosF sqrtF piv rnd options k i j w =
      ⟨w.x, w.y, w.z + FaultDelta sinF cosF sqrtF piv rnd options k i j⟩ := by
  simp only [FaultBody, FaultDelta]
  split_ifs with h1 h2
  · rfl
  · rw [sub_eq_add_neg]
  · rfl

/-- C4 (amended): the generators that do not end with a height clamp add to,
rather than replace, the existing elevation: with the random draws fixed, the
final `z` of each vertex is its initial `z` plus a contribution that does not
depend on the grid at all (the contribution functions take only the draws and
the options). This holds for `Cosine`, `Perlin`, `Simplex` and `Fault`;
`Weierstrass` and `generateFromValueNoise` end with `applyTerrainClamp`,
whose output depends on the pre-existing elevation (see the
counterexample), so they do not superpose. -/
theorem generators_superpose [FloorRing α] :
    (∀ (cosF : α → α) (piv : α) (rnd : ℕ → α) (s : α) (g : Grid α)
        (o : TerrainOptions α),
      (Cosine cosF piv rnd s g o).2 = zAddC g (CosineContrib cosF piv rnd o)) ∧
    (∀ (perlinF : α → α → α → α) (rnd : ℕ → α) (s : α) (g : Grid α)
        (o : TerrainOptions α),
      (Perlin perlinF rnd s g o).2 = zAddC g (PerlinContrib perlinF rnd o)) ∧
    (∀ (simplexF : α → α → α → α) (rnd : ℕ → α) (s : α) (g : Grid α)
        (o : TerrainOptions α),
      (Simplex simplexF rnd s g o).2 = zAddC g (SimplexContrib simplexF rnd o)) ∧
    (∀ (sinF cosF sqrtF : α → α) (piv : α) (rnd : ℕ → α) (s : α) (g : Grid α)
        (o : TerrainOptions α),
      (Fault sinF cosF sqrtF piv rnd s g o).2 =
        zAddC g (FaultContrib sinF cosF sqrtF piv rnd o)) := by
  refine ⟨fun cosF piv rnd s g o => ?_, fun perlinF rnd s g o => ?_,
    fun simplexF rnd s g o => ?_, fun sinF cosF sqrtF piv rnd s g o => ?_⟩
  · exact ijFold_eq_zAddC _ _ (Nat.succ_pos _) _ g
  · exact ijFold_eq_zAddC _ _ (Nat.succ_pos _) _ g
  · exact ijFold_eq_zAddC _ _ (Nat.succ_pos _) _ g
  · have hb : ∀ k, FaultBody sinF cosF sqrtF piv rnd o k =
        fun i j w => ⟨w.x, w.y, w.z + FaultDelta sinF cosF sqrtF piv rnd o k i j⟩ :=
      fun k => funext fun i => funext fun j => funext fun w =>
        FaultBody_eq_add sinF cosF sqrtF piv rnd o k i j w
    show (List.range _).foldl
        (fun g1 k => ijFold (o.widthSegments + 1) (o.heightSegments + 1)
          (FaultBody sinF cosF sqrtF piv rnd o k) g1) g =
      zAddC g (FaultContrib sinF cosF sqrtF piv rnd o)
    simp only [hb]
    exact foldl_ijFold_eq_zAddC _ _ (Nat.succ_pos _) _ _ g

/-! Auxiliary facts for the value-noise counterexample: with every random
draw equal to 0, each white-noise layer writes only zeros into an all-zero
data buffer and adds nothing to the grid. -/

theorem foldl_preserves {σ β : Type} (P : σ → Prop) (f : σ → β → σ)
    (l : List β) (s : σ) (h0 : P s) (hf : ∀ s2 b, P s2 → P (f s2 b)) :
    P (l.foldl f s) := by
  induction l generalizing s with
  | nil => exact h0
  | cons b t ih => exact ih (f s b) (hf s b h0)

theorem foldl_id {σ β : Type} (f : σ → β → σ) (l : List β) (s : σ)
    (hf : ∀ s2 b, f s2 b = s2) : l.foldl f s = s := by
  induction l generalizing s with
  | nil => rfl
  | cons b t ih => rw [List.foldl_cons, hf s b, ih]

theorem modV_id (g : Grid α) (k : ℕ) : modV g k (fun v => v) = g := by
  induction g generalizing k with
  | nil => rfl
  | cons v t ih =>
    cases k with
    | zero => rfl
    | succ k => rw [modV, ih]

theorem ijFold_id (xl yl : ℕ) (g : Grid α) :
    ijFold xl yl (fun _ _ v => v) g = g := by
  rw [ijFold]
  exact foldl_id _ _ _ fun s2 i => foldl_id _ _ _ fun s3 j => modV_id s3 _

theorem set_replicate {β : Type} (n k : ℕ) (a : β) :
    (List.replicate n a).set k a = List.replicate n a := by
  induction n generalizing k with
  | zero => rfl
  | succ n ih =>
    cases k with
    | zero => rfl
    | succ k => simp only [List.replicate, List.set, ih]

theorem getD_replicate (n m : ℕ) : (List.replicate n (0 : α)).getD m 0 = 0 := by
  induction n generalizing m with
  | zero => cases m <;> rfl
  | succ n ih => cases m with
    | zero => rfl
    | succ m => exact ih m

theorem dataWrite_replicate (n : ℕ) (idx : ℤ) :
    dataWrite (List.replicate n (0 : α)) idx 0 = List.replicate n 0 := by
  rw [dataWrite]
  split
  · exact set_replicate n idx.toNat 0
  · rfl

theorem dataRead_replicate (n : ℕ) (idx : ℤ) (t : α) :
    dataRead (List.replicate n (0 : α)) idx t = t := by
  rw [dataRead]
  split
  · rw [getD_replicate, if_pos rfl]
  · rfl

theorem whiteNoiseStep_data_zero (range : α) (xl inc n : ℕ)
    (st : List α × ℕ × ℤ × ℤ) (ij : ℕ × ℕ) (h : st.1 = List.replicate n 0) :
    (whiteNoiseStep (fun _ => 0) range xl inc st ij).1 = List.replicate n 0 := by
  obtain ⟨data, ctr, lastX, lastY⟩ := st
  simp only at h
  subst h
  simp only [whiteNoiseStep, zero_mul, dataWrite_replicate, getD_replicate,
    dataRead_replicate, mul_zero, add_zero, zero_add]
  split
  · rfl
  · show (_ : List α × ℕ × ℤ × ℤ).1 = _
    refine foldl_preserves (fun d => d = List.replicate n 0) _ _ _ rfl
      fun s2 x hs2 => ?_
    refine foldl_preserves (fun d => d = List.replicate n 0) _ _ _ hs2
      fun s3 y hs3 => ?_
    subst hs3
    split
    · rfl
    · split
      · rfl
      · exact dataWrite_replicate n _

theorem whiteNoiseScanState_data_zero (range : α) (segments inc n ctr : ℕ) :
    (whiteNoiseScanState (fun _ => 0) range segments inc
      (List.replicate n 0) ctr).1 = List.replicate n 0 := by
  rw [whiteNoiseScanState]
  refine foldl_preserves
    (fun st : List α × ℕ × ℤ × ℤ => st.1 = List.replicate n 0) _ _ _ rfl
    fun st i hst => ?_
  show ((_ : List α × ℕ × ℤ × ℤ).1, _, _, _).1 = _
  exact foldl_preserves
    (fun st2 : List α × ℕ × ℤ × ℤ => st2.1 = List.replicate n 0) _ _ _ hst
    fun s2 j hs2 => whiteNoiseStep_data_zero range segments inc n s2 (i, j) hs2

theorem WhiteNoise_zero (g : Grid α) (o : TerrainOptions α)
    (scale segments : ℕ) (range : α) (n ctr : ℕ) :
    (WhiteNoise (fun _ => 0) g o scale segments range
        (List.replicate n 0) ctr).1 = g ∧
    (WhiteNoise (fun _ => 0) g o scale segments range
        (List.replicate n 0) ctr).2.1 = List.replicate n 0 := by
  by_cases hs : scale > segments
  · rw [WhiteNoise, if_pos hs]
    exact ⟨rfl, rfl⟩
  · rw [WhiteNoise, if_neg hs]
    have hd := whiteNoiseScanState_data_zero (α := α) range segments
      (segments / scale) n ctr
    refine ⟨?_, hd⟩
    show ijFold _ _ _ g = g
    simp only [hd, getD_replicate, add_zero]
    exact ijFold_id _ _ g

/-- C4 counterexample: `generateFromValueNoise` does not merely add an
initial-elevation-independent contribution. With all random draws 0 the white
noise layers contribute nothing, and the final stretch-clamp maps the actual
data range of the grid onto `[minHeight, maxHeight]`: starting from `gridA`
(elevations 0,1,0,0) vertex 1 gains 9, while starting from `gridB`
(elevations 0,2,0,0) it gains 8. -/
theorem generateFromValueNoise_not_additive_cex :
    ((generateFromValueNoise (fun _ => 0) (fun _ => 0) 0 gridA optsQ1).2.getD 1
        ⟨0, 0, 0⟩).z - (gridA.getD 1 ⟨0, 0, 0⟩).z ≠
      ((generateFromValueNoise (fun _ => 0) (fun _ => 0) 0 gridB optsQ1).2.getD 1
        ⟨0, 0, 0⟩).z - (gridB.getD 1 ⟨0, 0, 0⟩).z := by
  have hgen : ∀ g : Grid ℚ,
      (generateFromValueNoise (fun _ => 0) (fun _ => 0) 0 g optsQ1).2 =
        applyTerrainClamp g optsQ1.minHeight optsQ1.maxHeight true Linear := by
    intro g
    show applyTerrainClamp (_ : Grid ℚ × List ℚ × ℕ).1 _ _ true Linear = _
    have hrun : ((List.range 5).foldl (fun (st : Grid ℚ × List ℚ × ℕ) i3 =>
        WhiteNoise (fun _ => 0) st.1 optsQ1 (2 ^ (i3 + 2))
          ((max optsQ1.widthSegments optsQ1.heightSegments + 1) ^ 2)
          ((optsQ1.maxHeight - optsQ1.minHeight) *
            (fun _ => (0 : ℚ)) ((12 : ℚ) / 5 - ((i3 + 2 : ℕ) : ℚ) * (6 / 5)))
          st.2.1 st.2.2)
        (g, List.replicate 25 0, 0)).1 = g := by
      refine (foldl_preserves
        (fun st : Grid ℚ × List ℚ × ℕ => st.1 = g ∧ st.2.1 = List.replicate 25 0)
        _ _ _ ⟨rfl, rfl⟩ fun st i3 hst => ?_).1
      rw [hst.1] at *
      constructor
      · rw [hst.2]
        exact (WhiteNoise_zero g optsQ1 _ _ _ 25 st.2.2).1
      · rw [hst.2]
        exact (WhiteNoise_zero g optsQ1 _ _ _ 25 st.2.2).2
    exact congrArg (fun g2 => applyTerrainClamp g2 optsQ1.minHeight
      optsQ1.maxHeight true Linear) hrun
  rw [hgen gridA, hgen gridB]
  norm_num [applyTerrainClamp, gridA, gridB, optsQ1, Linear, min_def, max_def]

/-- C5 counterexample: `Fault` never calls `seed`. Running `Fault` with noise
seed state 0 and a random stream whose first draw is 1 leaves the seed state
at 0; had `Fault` called `seed` with a fresh random value at the start of its
run the state would be 1. (`Cosine`, `DiamondSquare`, `Weierstrass` and the
value-noise generator likewise never touch the seed; see the amended
theorem.) -/
theorem Fault_does_not_seed_cex :
    (Fault (fun _ => 0) (fun _ => 0) (fun _ => 0) 0 (fun _ => (1 : ℚ)) 0
      gridQ4 optsQ1).1 = 0 ∧
    (fun _ => (1 : ℚ)) 0 = 1 ∧
    (Fault (fun _ => 0) (fun _ => 0) (fun _ => 0) 0 (fun _ => (1 : ℚ)) 0
      gridQ4 optsQ1).1 ≠ (fun _ => (1 : ℚ)) 0 := by
  refine ⟨rfl, rfl, ?_⟩
  norm_num [Fault]

/-- C5 (amended): only `Perlin` and `Simplex` call `seed` with a fresh random
value (the first draw of the stream) at the start of their run; `Cosine`,
`Fault`, `Weierstrass` and `generateFromValueNoise` leave the noise seed
state untouched and instead draw their own fresh `Math.random()` values
directly, which still makes two calls with identical options produce
different terrain. -/
theorem seed_call_behavior [FloorRing α] :
    (∀ (perlinF : α → α → α → α) (rnd : ℕ → α) (s : α) (g : Grid α)
        (o : TerrainOptions α), (Perlin perlinF rnd s g o).1 = rnd 0) ∧
    (∀ (simplexF : α → α → α → α) (rnd : ℕ → α) (s : α) (g : Grid α)
        (o : TerrainOptions α), (Simplex simplexF rnd s g o).1 = rnd 0) ∧
    (∀ (cosF : α → α) (piv : α) (rnd : ℕ → α) (s : α) (g : Grid α)
        (o : TerrainOptions α), (Cosine cosF piv rnd s g o).1 = s) ∧
    (∀ (sinF cosF sqrtF : α → α) (piv : α) (rnd : ℕ → α) (s : α) (g : Grid α)
        (o : TerrainOptions α), (Fault sinF cosF sqrtF piv rnd s g o).1 = s) ∧
    (∀ (sinF cosF expF : α → α) (rnd : ℕ → α) (s : α) (g : Grid α)
        (o : TerrainOptions α), (Weierstrass sinF cosF expF rnd s g o).1 = s) ∧
    (∀ (pow2F : α → α) (rnd : ℕ → α) (s : α) (g : Grid α)
        (o : TerrainOptions α), (generateFromValueNoise pow2F rnd s g o).1 = s) :=
  ⟨fun _ _ _ _ _ => rfl, fun _ _ _ _ _ => rfl, fun _ _ _ _ _ _ => rfl,
    fun _ _ _ _ _ _ _ _ => rfl, fun _ _ _ _ _ _ _ => rfl, fun _ _ _ _ _ => rfl⟩

/-! ## C8 and C10: DiamondSquare -/

theorem list_get?_set {β : Type} (l : List β) (m n : ℕ) (a : β) :
    (l.set m a).get? n = if m = n ∧ n < l.length then some a else l.get? n := by
  induction l generalizing m n with
  | nil => simp
  | cons b t ih =>
    cases m with
    | zero =>
      cases n with
      | zero => simp [List.set]
      | succ n => simp [List.set]
    | succ m =>
      cases n with
      | zero => simp [List.set]
      | succ n =>
        rw [List.set, List.get?_cons_succ, List.get?_cons_succ, ih]
        simp only [List.length_cons]
        rw [if_congr (by omega : (m = n ∧ n < t.length) ↔
          (m + 1 = n + 1 ∧ n + 1 < t.length + 1)) rfl rfl]

theorem hmGet_some_of_rect {seg : ℕ} {hm : List (List α)} (hrect : hmRect seg hm)
    {x y : ℕ} (hx : x ≤ seg) (hy : y ≤ seg) : ∃ v, hmGet hm x y = some v := by
  obtain ⟨row, hrow⟩ : ∃ row, hm.get? x = some row :=
    ⟨_, List.get?_eq_get (by rw [hrect.1]; omega)⟩
  have hlen := hrect.2 x row hrow
  obtain ⟨v, hv⟩ : ∃ v, row.get? y = some v :=
    ⟨_, List.get?_eq_get (by rw [hlen]; omega)⟩
  exact ⟨v, by rw [hmGet, hrow, Option.some_bind, hv]⟩

theorem hmSet_some_of_rect {seg : ℕ} {hm : List (List α)} (hrect : hmRect seg hm)
    {x y : ℕ} (hx : x ≤ seg) (hy : y ≤ seg) (v : α) :
    ∃ hm2, hmSet hm x y v = some hm2 ∧ hmRect seg hm2 ∧
      hm2 = hm.set x ((hm.getD x []).set y v) := by
  obtain ⟨row, hrow⟩ : ∃ row, hm.get? x = some row :=
    ⟨_, List.get?_eq_get (by rw [hrect.1]; omega)⟩
  have hlen := hrect.2 x row hrow
  refine ⟨hm.set x (row.set y v), ?_, ⟨by simp [hrect.1], ?_⟩, ?_⟩
  · rw [hmSet]
    simp only [hrow]
    rw [if_pos (by rw [hlen]; omega)]
  · intro i row2 hrow2
    rw [list_get?_set] at hrow2
    by_cases hcase : x = i ∧ i < hm.length
    · rw [if_pos hcase, Option.some_inj] at hrow2
      rw [← hrow2]
      simp [hlen]
    · rw [if_neg hcase] at hrow2
      exact hrect.2 i row2 hrow2
  · rw [List.getD_eq_getElem?_getD, ← List.get?_eq_getElem?, hrow]
    rfl

theorem mem_strideList {bound step x : ℕ} (hx : x ∈ strideList bound step) :
    ∃ t, x = t * step ∧ x < bound := by
  rw [strideList, List.mem_map] at hx
  obtain ⟨t, ht, rfl⟩ := hx
  rw [List.mem_range] at ht
  refine ⟨t, rfl, ?_⟩
  have h3 : (t + 1) * step ≤ ((bound + step - 1) / step) * step :=
    Nat.mul_le_mul_right _ ht
  have h4 : ((bound + step - 1) / step) * step ≤ bound + step - 1 :=
    Nat.div_mul_le_self _ _
  have h5 : t * step + step ≤ bound + step - 1 := by
    rw [add_mul, one_mul] at h3
    omega
  rcases Nat.eq_zero_or_pos step with hstep | hstep
  · subst hstep
    simp at ht
  · omega

theorem mem_strideFrom {start bound step y : ℕ} (hy : y ∈ strideFrom start bound step) :
    y < bound := by
  rw [strideFrom, List.mem_map] at hy
  obtain ⟨t, ht, rfl⟩ := hy
  rw [List.mem_range] at ht
  have h3 : (t + 1) * step ≤ ((bound - start + step - 1) / step) * step :=
    Nat.mul_le_mul_right _ ht
  have h4 : ((bound - start + step - 1) / step) * step ≤ bound - start + step - 1 :=
    Nat.div_mul_le_self _ _
  have h5 : t * step + step ≤ bound - start + step - 1 := by
    rw [add_mul, one_mul] at h3
    omega
  rcases Nat.eq_zero_or_pos step with hstep | hstep
  · subst hstep
    simp at ht
  · omega

theorem stride_add_le {t l seg : ℕ} (hl : 0 < l) (hdvd : l ∣ seg)
    (h : t * l < seg) : t * l + l ≤ seg := by
  obtain ⟨q, rfl⟩ := hdvd
  have ht : t < q := by
    by_contra h2
    push_neg at h2
    have h3 : q * l ≤ t * l := Nat.mul_le_mul_right l h2
    rw [mul_comm l q] at h
    omega
  have h6 : (t + 1) * l ≤ q * l := Nat.mul_le_mul_right l ht
  rw [add_mul, one_mul] at h6
  rw [mul_comm l q]
  omega

theorem dsSquareCell_some {seg : ℕ} (rnd : ℕ → α) (whole half : ℕ) (s : α)
    (st : List (List α) × ℕ) (x y : ℕ) (hrect : hmRect seg st.1)
    (hx : x + whole ≤ seg) (hy : y + whole ≤ seg) (hhalf : half ≤ whole) :
    ∃ st2, dsSquareCell rnd whole half s st x y = some st2 ∧ hmRect seg st2.1 := by
  obtain ⟨tl, htl⟩ := hmGet_some_of_rect hrect (x := x) (y := y)
    (by omega) (by omega)
  obtain ⟨tr, htr⟩ := hmGet_some_of_rect hrect (x := x + whole) (y := y)
    (by omega) (by omega)
  obtain ⟨bl, hbl⟩ := hmGet_some_of_rect hrect (x := x) (y := y + whole)
    (by omega) (by omega)
  obtain ⟨br, hbr⟩ := hmGet_some_of_rect hrect (x := x + whole) (y := y + whole)
    (by omega) (by omega)
  obtain ⟨hm2, hhm2, hrect2, _⟩ := hmSet_some_of_rect hrect
    (x := x + half) (y := y + half) (by omega) (by omega)
    ((tl + tr + bl + br) * (1 / 4 : α) + (rnd st.2 * s * 2 - s))
  refine ⟨(hm2, st.2 + 1), ?_, hrect2⟩
  rw [dsSquareCell]
  simp only [Option.bind_eq_bind', htl, htr, hbl, hbr, hhm2, Option.some_bind',
    Option.pure_def]

theorem dsDiamondCell_some {seg : ℕ} (rnd : ℕ → α) (half : ℕ) (s : α)
    (st : List (List α) × ℕ) (x y : ℕ) (hrect : hmRect seg st.1)
    (hx : x < seg) (hy : y < seg) :
    ∃ st2, dsDiamondCell rnd seg half s st x y = some st2 ∧ hmRect seg st2.1 := by
  have hsize : 0 < seg + 1 := Nat.succ_pos seg
  have hws : dsWrapSub (seg + 1) half x ≤ seg :=
    Nat.lt_succ_iff.1 (Nat.mod_lt _ hsize)
  have hwa : dsWrapAdd (seg + 1) half x ≤ seg :=
    Nat.lt_succ_iff.1 (Nat.mod_lt _ hsize)
  have hws2 : dsWrapSub (seg + 1) half y ≤ seg :=
    Nat.lt_succ_iff.1 (Nat.mod_lt _ hsize)
  have hwa2 : dsWrapAdd (seg + 1) half y ≤ seg :=
    Nat.lt_succ_iff.1 (Nat.mod_lt _ hsize)
  obtain ⟨ml, hml⟩ := hmGet_some_of_rect hrect (y := y) hws (by omega)
  obtain ⟨mr, hmr⟩ := hmGet_some_of_rect hrect (y := y) hwa (by omega)
  obtain ⟨mt, hmt⟩ := hmGet_some_of_rect hrect (x := x) (by omega) hwa2
  obtain ⟨mb, hmb⟩ := hmGet_some_of_rect hrect (x := x) (by omega) hws2
  obtain ⟨hm2, hhm2, hrect2, _⟩ := hmSet_some_of_rect hrect (x := x) (y := y)
    (by omega) (by omega) ((ml + mr + mt + mb) * (1 / 4 : α) + (rnd st.2 * s * 2 - s))
  by_cases hx0 : x = 0
  · obtain ⟨hm3, hhm3, hrect3, _⟩ := hmSet_some_of_rect hrect2 (x := seg) (y := y)
      (by omega) (by omega) ((ml + mr + mt + mb) * (1 / 4 : α) + (rnd st.2 * s * 2 - s))
    by_cases hy0 : y = 0
    · obtain ⟨hm4, hhm4, hrect4, _⟩ := hmSet_some_of_rect hrect3 (x := x) (y := seg)
        (by omega) (by omega) ((ml + mr + mt + mb) * (1 / 4 : α) + (rnd st.2 * s * 2 - s))
      refine ⟨(hm4, st.2 + 1), ?_, hrect4⟩
      subst hx0
      subst hy0
      simp only [one_div] at hhm2 hhm3 hhm4
      rw [dsDiamondCell]
      simp [hml, hmr, hmt, hmb, hhm2, hhm3, hhm4]
    · refine ⟨(hm3, st.2 + 1), ?_, hrect3⟩
      subst hx0
      simp only [one_div] at hhm2 hhm3
      rw [dsDiamondCell]
      simp [hml, hmr, hmt, hmb, hhm2, hhm3, hy0]
  · by_cases hy0 : y = 0
    · obtain ⟨hm4, hhm4, hrect4, _⟩ := hmSet_some_of_rect hrect2 (x := x) (y := seg)
        (by omega) (by omega) ((ml + mr + mt + mb) * (1 / 4 : α) + (rnd st.2 * s * 2 - s))
      refine ⟨(hm4, st.2 + 1), ?_, hrect4⟩
      subst hy0
      simp only [one_div] at hhm2 hhm4
      rw [dsDiamondCell]
      simp [hml, hmr, hmt, hmb, hhm2, hhm4, hx0]
    · refine ⟨(hm2, st.2 + 1), ?_, hrect2⟩
      simp only [one_div] at hhm2
      rw [dsDiamondCell]
      simp [hml, hmr, hmt, hmb, hhm2, hx0, hy0]

theorem dsLevel_some {seg : ℕ} (rnd : ℕ → α) (l : ℕ) (s : α)
    (st : List (List α) × ℕ) (hrect : hmRect seg st.1) (hl2 : 2 ≤ l)
    (hdvd : l ∣ seg) (hseg : 0 < seg) :
    ∃ st2, dsLevel rnd seg l s st = some st2 ∧ hmRect seg st2.1 := by
  have hl0 : 0 < l := by omega
  have hhalf0 : 0 < l / 2 := by omega
  have hsq : ∃ st1, foldO (fun st2 x =>
      foldO (fun st3 y => dsSquareCell rnd l (l / 2) s st3 x y) st2
        (strideList seg l)) st (strideList seg l) = some st1 ∧ hmRect seg st1.1 := by
    refine foldO_invariant (fun st2 : List (List α) × ℕ => hmRect seg st2.1) _ _ _ hrect
      fun st2 x hp hxmem => ?_
    obtain ⟨tx, rfl, hxlt⟩ := mem_strideList hxmem
    refine foldO_invariant (fun st3 : List (List α) × ℕ => hmRect seg st3.1) _ _ _ hp
      fun st3 y hp3 hymem => ?_
    obtain ⟨ty, rfl, hylt⟩ := mem_strideList hymem
    exact dsSquareCell_some rnd l (l / 2) s st3 _ _ hp3
      (stride_add_le hl0 hdvd hxlt) (stride_add_le hl0 hdvd hylt)
      (Nat.div_le_self l 2)
  obtain ⟨st1, hst1, hrect1⟩ := hsq
  have hdi : ∃ st2, foldO (fun st3 x =>
      foldO (fun st4 y => dsDiamondCell rnd seg (l / 2) s st4 x y) st3
        (strideFrom ((x + l / 2) % l) seg l)) st1 (strideList seg (l / 2)) =
      some st2 ∧ hmRect seg st2.1 := by
    refine foldO_invariant (fun st2 : List (List α) × ℕ => hmRect seg st2.1) _ _ _ hrect1
      fun st2 x hp hxmem => ?_
    obtain ⟨tx, rfl, hxlt⟩ := mem_strideList hxmem
    refine foldO_invariant (fun st3 : List (List α) × ℕ => hmRect seg st3.1) _ _ _ hp
      fun st3 y hp3 hymem => ?_
    exact dsDiamondCell_some rnd (l / 2) s st3 _ _ hp3 hxlt (mem_strideFrom hymem)
  obtain ⟨st2, hst2, hrect2⟩ := hdi
  refine ⟨st2, ?_, hrect2⟩
  rw [dsLevel]
  simp only [Option.bind_eq_bind', hst1, hst2, Option.some_bind']

theorem dsLoop_some {seg : ℕ} (rnd : ℕ → α) (hseg : 0 < seg) :
    ∀ (m l : ℕ) (s : α) (st : List (List α) × ℕ), l = 2 ^ m → l ∣ seg →
      hmRect seg st.1 →
      ∃ st2, dsLoop rnd seg l s st = some st2 ∧ hmRect seg st2.1 := by
  intro m
  induction m with
  | zero =>
    intro l s st hl _ hrect
    subst hl
    rw [dsLoop, dif_neg (by norm_num)]
    exact ⟨st, rfl, hrect⟩
  | succ m ih =>
    intro l s st hl hdvd hrect
    subst hl
    have hl2 : 2 ≤ 2 ^ (m + 1) := by
      calc 2 = 2 ^ 1 := rfl
        _ ≤ 2 ^ (m + 1) := Nat.pow_le_pow_right (by norm_num) (by omega)
    obtain ⟨st1, hst1, hrect1⟩ := dsLevel_some rnd (2 ^ (m + 1)) (s / 2) st
      hrect hl2 hdvd hseg
    have hdiv : 2 ^ (m + 1) / 2 = 2 ^ m := by
      rw [Nat.pow_succ, Nat.mul_div_cancel _ (by norm_num)]
    have hdvd2 : 2 ^ m ∣ seg := dvd_trans ⟨2, by rw [Nat.pow_succ]⟩ hdvd
    obtain ⟨st2, hst2, hrect2⟩ := ih (2 ^ m) (s / 2) st1 rfl hdvd2 hrect1
    refine ⟨st2, ?_, hrect2⟩
    rw [dsLoop, dif_pos hl2, hst1, Option.some_bind, hdiv, hst2]

theorem dsApply_some {seg : ℕ} (g : Grid α) (hm : List (List α)) (xl yl : ℕ)
    (hrect : hmRect seg hm) (hxl : xl ≤ seg + 1) (hyl : yl ≤ seg + 1)
    (hlen : xl * yl ≤ g.length) :
    ∃ g2, dsApply g hm xl yl = some g2 := by
  have main := foldO_invariant (fun g2 : Grid α => g2.length = g.length)
    (fun g1 i => foldO (fun g2 j =>
        (hmGet hm i j).bind fun z => gridAddZChecked g2 (j * xl + i) z)
      g1 (List.range yl))
    (List.range xl) g rfl ?_
  · obtain ⟨g2, hg2, _⟩ := main
    exact ⟨g2, hg2⟩
  · intro g1 i hp hi
    rw [List.mem_range] at hi
    refine foldO_invariant (fun g2 : Grid α => g2.length = g.length) _ _ _ hp
      fun g2 j hp2 hj => ?_
    rw [List.mem_range] at hj
    obtain ⟨z, hz⟩ := hmGet_some_of_rect hrect (x := i) (y := j)
      (by omega) (by omega)
    have hidx : j * xl + i < g2.length := by
      rw [hp2]
      exact Nat.lt_of_lt_of_le (index_lt_of_lt hi hj) hlen
    obtain ⟨v, hv⟩ : ∃ v, g2.get? (j * xl + i) = some v :=
      ⟨_, List.get?_eq_get hidx⟩
    refine ⟨addZ g2 (j * xl + i) z, ?_, ?_⟩
    · rw [hz, Option.some_bind, gridAddZChecked, hv]
    · show (addZ g2 (j * xl + i) z).length = g.length
      rw [addZ, modV_length]
      exact hp2

/-- C10: for all options with `widthSegments, heightSegments ≥ 1` and a
vertex grid of at least `(widthSegments+1) * (heightSegments+1)` vertices,
every read and write `DiamondSquare` performs — on its internal heightmap
buffer and on the vertex grid — is in bounds: the fully index-checked
embedding, which returns `none` on any out-of-range access, always returns
`some`. -/
theorem DiamondSquare_in_bounds (rnd : ℕ → α) (g : Grid α)
    (o : TerrainOptions α) (hw : 1 ≤ o.widthSegments) (hh : 1 ≤ o.heightSegments)
    (hlen : (o.widthSegments + 1) * (o.heightSegments + 1) ≤ g.length) :
    ∃ g2, DiamondSquare rnd g o = some g2 := by
  have hle : max o.widthSegments o.heightSegments + 1 ≤
      dsSegments o.widthSegments o.heightSegments :=
    Nat.le_pow_clog one_lt_two _
  have hseg0 : 0 < dsSegments o.widthSegments o.heightSegments :=
    Nat.pos_pow_of_pos _ (by norm_num)
  have hrect0 : hmRect (dsSegments o.widthSegments o.heightSegments)
      (List.replicate (dsSegments o.widthSegments o.heightSegments + 1)
        (List.replicate (dsSegments o.widthSegments o.heightSegments + 1) (0 : α))) := by
    refine ⟨List.length_replicate _ _, fun i row hrow => ?_⟩
    have hmem : row ∈ List.replicate
        (dsSegments o.widthSegments o.heightSegments + 1)
        (List.replicate (dsSegments o.widthSegments o.heightSegments + 1) (0 : α)) :=
      List.get?_mem hrow
    rw [List.eq_of_mem_replicate hmem]
    exact List.length_replicate _ _
  obtain ⟨st2, hst2, hrect2⟩ := dsLoop_some rnd hseg0
    (Nat.clog 2 (max o.widthSegments o.heightSegments + 1))
    (dsSegments o.widthSegments o.heightSegments)
    (o.maxHeight - o.minHeight)
    (List.replicate (dsSegments o.widthSegments o.heightSegments + 1)
      (List.replicate (dsSegments o.widthSegments o.heightSegments + 1) (0 : α)), 0)
    rfl dvd_rfl hrect0
  obtain ⟨g2, hg2⟩ := dsApply_some g st2.1 (o.widthSegments + 1)
    (o.heightSegments + 1) hrect2 (by omega) (by omega) hlen
  exact ⟨g2, by rw [DiamondSquare, hst2, Option.some_bind, hg2]⟩

theorem dsTrace_get? : ∀ (m k : ℕ) (s : α), k < m →
    (dsTrace (2 ^ m) s).get? k = some (2 ^ (m - k), s / 2 ^ (k + 1)) := by
  intro m
  induction m with
  | zero => intro k s hk; omega
  | succ m ih =>
    intro k s hk
    have h2 : 2 ≤ 2 ^ (m + 1) := by
      calc 2 = 2 ^ 1 := rfl
        _ ≤ 2 ^ (m + 1) := Nat.pow_le_pow_right (by norm_num) (by omega)
    have hdiv : 2 ^ (m + 1) / 2 = 2 ^ m := by
      rw [Nat.pow_succ, Nat.mul_div_cancel _ (by norm_num)]
    rw [dsTrace, dif_pos h2, hdiv]
    cases k with
    | zero =>
      rw [List.get?_cons_zero]
      norm_num
    | succ k =>
      rw [List.get?_cons_succ, ih k (s / 2) (by omega)]
      have he1 : m - k = m + 1 - (k + 1) := by omega
      have he2 : s / 2 / 2 ^ (k + 1) = s / 2 ^ (k + 1 + 1) := by
        rw [div_div, ← pow_succ']
      rw [he1, he2]

theorem dsLoop_eq_trace (rnd : ℕ → α) (seg : ℕ) : ∀ (l : ℕ) (s : α)
    (st : List (List α) × ℕ),
    dsLoop rnd seg l s st =
      foldO (fun st2 p => dsLevel rnd seg p.1 p.2 st2) st (dsTrace l s) := by
  intro l
  induction l using Nat.strong_induction_on with
  | _ l ih =>
    intro s st
    rw [dsLoop, dsTrace]
    by_cases h2 : 2 ≤ l
    · rw [dif_pos h2, dif_pos h2, foldO_cons]
      cases hlev : dsLevel rnd seg l (s / 2) st with
      | none => simp [hlev]
      | some st2 =>
        simp only [hlev, Option.some_bind]
        exact ih (l / 2) (Nat.div_lt_self (by omega) (by omega)) (s / 2) st2
    · rw [dif_neg h2, dif_neg h2, foldO_nil]
      rfl

theorem dsWrapSub_eq (size half x : ℕ) (h0 : 0 < size) (hh : half ≤ size)
    (hx : x < size) :
    dsWrapSub size half x = if half ≤ x then x - half else x + size - half := by
  rw [dsWrapSub]
  by_cases hhx : half ≤ x
  · rw [if_pos hhx]
    have he : x + size - half = size + (x - half) := by omega
    rw [he, Nat.add_mod_left]
    exact Nat.mod_eq_of_lt (by omega)
  · rw [if_neg hhx]
    exact Nat.mod_eq_of_lt (by omega)

theorem dsWrapAdd_eq (size half x : ℕ) (h0 : 0 < size) (hh : half ≤ size)
    (hx : x < size) :
    dsWrapAdd size half x = if x + half < size then x + half else x + half - size := by
  rw [dsWrapAdd]
  by_cases h : x + half < size
  · rw [if_pos h]
    exact Nat.mod_eq_of_lt h
  · rw [if_neg h]
    rw [Nat.mod_eq_sub_mod (by omega : size ≤ x + half)]
    exact Nat.mod_eq_of_lt (by omega)

theorem hmSet_eq_some {hm hm2 : List (List α)} {x y : ℕ} {v : α}
    (h : hmSet hm x y v = some hm2) :
    ∃ row, hm.get? x = some row ∧ y < row.length ∧
      hm2 = hm.set x (row.set y v) := by
  rw [hmSet] at h
  cases hrow : hm.get? x with
  | none =>
    simp only [hrow] at h
    exact Option.noConfusion h
  | some row =>
    simp only [hrow] at h
    split_ifs at h with hy
    · exact ⟨row, rfl, hy, (Option.some_inj.1 h).symm⟩

theorem hmGet_hmSet_self {hm hm2 : List (List α)} {x y : ℕ} {v : α}
    (h : hmSet hm x y v = some hm2) : hmGet hm2 x y = some v := by
  obtain ⟨row, hrow, hy, rfl⟩ := hmSet_eq_some h
  have hxlen : x < hm.length := by
    by_contra hc
    rw [List.get?_eq_none.2 (by omega)] at hrow
    cases hrow
  rw [hmGet, list_get?_set, if_pos ⟨rfl, hxlen⟩, Option.some_bind,
    list_get?_set, if_pos ⟨rfl, hy⟩]

theorem hmGet_hmSet_other {hm hm2 : List (List α)} {x y : ℕ} {v : α}
    (h : hmSet hm x y v = some hm2) (x2 y2 : ℕ) (hne : x2 ≠ x ∨ y2 ≠ y) :
    hmGet hm2 x2 y2 = hmGet hm x2 y2 := by
  obtain ⟨row, hrow, hy, rfl⟩ := hmSet_eq_some h
  rcases hne with hne | hne
  · rw [hmGet, hmGet, list_get?_set, if_neg (by intro hc; exact hne hc.1.symm)]
  · by_cases hx2 : x = x2 ∧ x2 < hm.length
    · obtain ⟨heq, hxlen⟩ := hx2
      subst heq
      rw [hmGet, hmGet, list_get?_set, if_pos ⟨rfl, hxlen⟩, hrow,
        Option.some_bind, Option.some_bind, list_get?_set,
        if_neg (by intro hc; exact hne hc.1.symm)]
    · rw [hmGet, hmGet, list_get?_set, if_neg hx2]

theorem dsDiamondCell_border (rnd : ℕ → α) (seg half : ℕ) (s : α)
    (st st2 : List (List α) × ℕ) (x y : ℕ) (hseg : 1 ≤ seg)
    (hx : x < seg) (hy : y < seg)
    (hrun : dsDiamondCell rnd seg half s st x y = some st2) :
    (x = 0 → ∃ a, hmGet st2.1 0 y = some a ∧ hmGet st2.1 seg y = some a) ∧
    (y = 0 → ∃ a, hmGet st2.1 x 0 = some a ∧ hmGet st2.1 x seg = some a) := by
  rw [dsDiamondCell] at hrun
  simp only [Option.bind_eq_bind', Option.bind_eq_some, Option.pure_def,
    Option.some_inj] at hrun
  obtain ⟨ml, hml, mr, hmr, mt, hmt, mb, hmb, hm2, hhm2, htail⟩ := hrun
  by_cases hx0 : x = 0
  · rw [if_pos hx0] at htail
    simp only [Option.bind_eq_some, Option.some_inj] at htail
    obtain ⟨hm3, hhm3, htail2⟩ := htail
    subst hx0
    by_cases hy0 : y = 0
    · rw [if_pos hy0] at htail2
      simp only [Option.bind_eq_some, Option.some_inj] at htail2
      obtain ⟨hm4, hhm4, hpair⟩ := htail2
      subst hy0
      have hst2 : st2.1 = hm4 := by rw [← hpair]
      rw [hst2]
      have h00 : hmGet hm4 0 0 =
          some ((ml + mr + mt + mb) * (1 / 4) + (rnd st.2 * s * 2 - s)) := by
        rw [hmGet_hmSet_other hhm4 0 0 (Or.inr (by omega)),
          hmGet_hmSet_other hhm3 0 0 (Or.inl (by omega)),
          hmGet_hmSet_self hhm2]
      have hs0 : hmGet hm4 seg 0 =
          some ((ml + mr + mt + mb) * (1 / 4) + (rnd st.2 * s * 2 - s)) := by
        rw [hmGet_hmSet_other hhm4 seg 0 (Or.inl (by omega)),
          hmGet_hmSet_self hhm3]
      have h0s : hmGet hm4 0 seg =
          some ((ml + mr + mt + mb) * (1 / 4) + (rnd st.2 * s * 2 - s)) :=
        hmGet_hmSet_self hhm4
      exact ⟨fun _ => ⟨_, h00, hs0⟩, fun _ => ⟨_, h00, h0s⟩⟩
    · rw [if_neg hy0] at htail2
      simp only [Option.some_bind, Option.some_inj] at htail2
      have hst2 : st2.1 = hm3 := by rw [← htail2]
      rw [hst2]
      refine ⟨fun _ => ⟨_, ?_, hmGet_hmSet_self hhm3⟩,
        fun hy0c => absurd hy0c hy0⟩
      rw [hmGet_hmSet_other hhm3 0 y (Or.inl (by omega)), hmGet_hmSet_self hhm2]
  · rw [if_neg hx0] at htail
    simp only [Option.some_bind] at htail
    by_cases hy0 : y = 0
    · rw [if_pos hy0] at htail
      simp only [Option.bind_eq_some, Option.some_inj] at htail
      obtain ⟨hm4, hhm4, hpair⟩ := htail
      subst hy0
      have hst2 : st2.1 = hm4 := by rw [← hpair]
      rw [hst2]
      refine ⟨fun hx0c => absurd hx0c hx0,
        fun _ => ⟨_, ?_, hmGet_hmSet_self hhm4⟩⟩
      rw [hmGet_hmSet_other hhm4 x 0 (Or.inr (by omega)), hmGet_hmSet_self hhm2]
    · exact ⟨fun hx0c => absurd hx0c hx0, fun hy0c => absurd hy0c hy0⟩

/-- C8: the structure of `DiamondSquare`. (1) The internal heightmap side
`segments` is the least power of two that is at least
`max(widthSegments, heightSegments) + 1`. (2) The run starts the level loop
at side `segments` with smoothing `maxHeight - minHeight` and then adds the
heightmap into the grid. (3) The level loop processes exactly the levels of
`dsTrace`, and (4) the `k`-th processed level has side `segments / 2^k` and
smoothing `(maxHeight - minHeight) / 2^(k+1)` — the displacement magnitude is
halved at every recursion level. (5) The diamond step wraps its neighbour
indices modulo the heightmap size. (6) A diamond value computed at `x = 0`
(resp. `y = 0`) is also stored at the opposite border `segments` of the
heightmap. -/
theorem DiamondSquare_structure :
    (∀ ws hs : ℕ, 1 ≤ ws → 1 ≤ hs →
      (∃ k, dsSegments ws hs = 2 ^ k) ∧
      max ws hs + 1 ≤ dsSegments ws hs ∧
      ∀ m : ℕ, max ws hs + 1 ≤ 2 ^ m → dsSegments ws hs ≤ 2 ^ m) ∧
    (∀ (rnd : ℕ → α) (g : Grid α) (o : TerrainOptions α),
      DiamondSquare rnd g o =
        (dsLoop rnd (dsSegments o.widthSegments o.heightSegments)
          (dsSegments o.widthSegments o.heightSegments)
          (o.maxHeight - o.minHeight)
          (List.replicate (dsSegments o.widthSegments o.heightSegments + 1)
            (List.replicate (dsSegments o.widthSegments o.heightSegments + 1) 0),
           0)).bind
          fun st => dsApply g st.1 (o.widthSegments + 1) (o.heightSegments + 1)) ∧
    (∀ (rnd : ℕ → α) (seg l : ℕ) (s : α) (st : List (List α) × ℕ),
      dsLoop rnd seg l s st =
        foldO (fun st2 p => dsLevel rnd seg p.1 p.2 st2) st (dsTrace l s)) ∧
    (∀ (m k : ℕ) (s : α), k < m →
      (dsTrace (2 ^ m) s).get? k = some (2 ^ (m - k), s / 2 ^ (k + 1))) ∧
    (∀ size half x : ℕ, 0 < size → half ≤ size → x < size →
      (dsWrapSub size half x = if half ≤ x then x - half else x + size - half) ∧
      (dsWrapAdd size half x = if x + half < size then x + half else x + half - size)) ∧
    (∀ (rnd : ℕ → α) (seg half : ℕ) (s : α) (st st2 : List (List α) × ℕ)
        (x y : ℕ), 1 ≤ seg → x < seg → y < seg →
      dsDiamondCell rnd seg half s st x y = some st2 →
      (x = 0 → ∃ a, hmGet st2.1 0 y = some a ∧ hmGet st2.1 seg y = some a) ∧
      (y = 0 → ∃ a, hmGet st2.1 x 0 = some a ∧ hmGet st2.1 x seg = some a)) := by
  refine ⟨fun ws hs _ _ => ⟨⟨_, rfl⟩, Nat.le_pow_clog one_lt_two _, fun m hm => ?_⟩,
    fun rnd g o => rfl, fun rnd seg l s st => dsLoop_eq_trace rnd seg l s st,
    fun m k s hk => dsTrace_get? m k s hk,
    fun size half x h0 hh hx =>
      ⟨dsWrapSub_eq size half x h0 hh hx, dsWrapAdd_eq size half x h0 hh hx⟩,
    fun rnd seg half s st st2 x y hseg hx hy hrun =>
      dsDiamondCell_border rnd seg half s st st2 x y hseg hx hy hrun⟩
  exact Nat.pow_le_pow_right (by norm_num)
    ((Nat.le_pow_iff_clog_le one_lt_two).1 hm)

theorem DiamondSquare_structure_witness :
    ((1 : ℕ) ≤ 3 ∧ (1 : ℕ) ≤ 5 ∧ max 3 5 + 1 ≤ dsSegments 3 5) ∧
    ((1 : ℕ) < 3 ∧ (dsTrace (2 ^ 3) (80 : ℚ)).get? 1 =
      some (2 ^ (3 - 1), 80 / 2 ^ (1 + 1))) ∧
    ((0 : ℕ) < 9 ∧ (4 : ℕ) ≤ 9 ∧ (2 : ℕ) < 9 ∧
      dsWrapSub 9 4 2 = (if 4 ≤ 2 then 2 - 4 else 2 + 9 - 4)) ∧
    (∃ st2, dsDiamondCell (fun _ => 0) 2 1 (0 : ℚ)
        (List.replicate 3 (List.replicate 3 0), 0) 0 1 = some st2 ∧
      ∃ a, hmGet st2.1 0 1 = some a ∧ hmGet st2.1 2 1 = some a) := by
  have h := DiamondSquare_structure (α := ℚ)
  refine ⟨⟨by decide, by decide, (h.1 3 5 (by decide) (by decide)).2.1⟩,
    ⟨by decide, h.2.2.2.1 3 1 80 (by decide)⟩,
    ⟨by decide, by decide, by decide,
      (h.2.2.2.2.1 9 4 2 (by decide) (by decide) (by decide)).1⟩, ?_⟩
  have hrect : hmRect 2 (List.replicate 3 (List.replicate 3 (0 : ℚ))) := by
    refine ⟨rfl, fun i row hrow => ?_⟩
    rw [List.eq_of_mem_replicate (List.get?_mem hrow)]
    rfl
  obtain ⟨st2, hst2, _⟩ := dsDiamondCell_some (fun _ => 0) 1 (0 : ℚ)
    (List.replicate 3 (List.replicate 3 0), 0) 0 1 hrect (by decide) (by decide)
  refine ⟨st2, hst2, ?_⟩
  exact (h.2.2.2.2.2 (fun _ => 0) 2 1 0 _ st2 0 1 (by decide) (by decide)
    (by decide) hst2).1 rfl

theorem DiamondSquare_in_bounds_witness :
    (1 ≤ (1 : ℕ)) ∧ ((1 + 1) * (1 + 1) ≤ gridQ4.length) ∧
      ∃ g2, DiamondSquare (fun _ => 0) gridQ4 optsQ1 = some g2 :=
  ⟨le_rfl, by decide,
    DiamondSquare_in_bounds (fun _ => (0 : ℚ)) gridQ4 optsQ1 (by decide)
      (by decide) (by decide)⟩

theorem normalizeTerrain_after_error_propagates_witness :
    optsQ1After.after = some afterBoom ∧
    afterBoom (normalizePipeline (fun g _ => g) (fun g _ => g) (fun g _ => g)
      (fun g _ => g) gridQ4 optsQ1After) = (gridQ4, some "boom") ∧
    normalizeTerrain (fun g _ => g) (fun g _ => g) (fun g _ => g) (fun g _ => g)
      gridQ4 optsQ1After = (gridQ4, some "boom") := by
  refine ⟨rfl, by decide, ?_⟩
  exact normalizeTerrain_after_error_propagates _ _ _ _ gridQ4 optsQ1After
    afterBoom gridQ4 "boom" rfl (by decide)

end Slab
